import Mathlib

/-!
Verification development for the story index and preparation cache
(source file: src/code/lib/preview-api/src/modules/store/StoryStore.ts).

The store is embedded shallowly: the mutable `StoryStore` object becomes an
explicit `StoreState` record threaded through every operation, promises
become `Except`-valued results, and object reference identity becomes a
`Nat` identity stamp allocated from a monotone counter (a fresh computation
always receives a fresh stamp, so "same object" is "same stamp").

Collaborators that live outside the given sources (the memoizerific LRU
cache, processCSFFile, prepareStory, ArgsStore, StoryIndexStore) are
modelled from the specification, as marked on each definition.
-/

namespace SB

/-- Leaf JavaScript values (one level below an object). -/
inductive JSLeaf where
  | str (s : String)
  | num (n : Nat)
  | bool (b : Bool)
deriving DecidableEq, Repr

/-- JavaScript values as they occur on a prepared story: strings, numbers,
booleans, function references (identified by a stamp), arrays of strings
(the only arrays relevant here, e.g. tags), and one-level objects. -/
inductive JSVal where
  | str (s : String)
  | num (n : Nat)
  | bool (b : Bool)
  | fn (id : Nat)
  | arr (l : List String)
  | obj (o : List (String × JSLeaf))
deriving DecidableEq, Repr

abbrev StoryId := String
abbrev Title := String

inductive EntryType where
  | story
  | docs
deriving DecidableEq, Repr

/-- One index entry (`IndexEntry` of the index store). -/
structure IndexEntry where
  type : EntryType
  importPath : String
  title : Title
  storiesImports : List String := []
deriving DecidableEq, Repr

/-- The story index: an ordered mapping from story id to entry. -/
structure StoryIndex where
  entries : List (StoryId × IndexEntry)
deriving DecidableEq, Repr

/-- Discriminated error kinds of the store operations. -/
inductive Err where
  | notInitialized (op : String)
  | cacheNotReady
  | notFound (id : String)
  | storyMissing (id : StoryId)
  | csfMissing (path : String)
  | loadFail (path : String)
deriving DecidableEq, Repr

/-- Association-list lookup (JavaScript object / Map access). -/
def aget {κ ν : Type} [DecidableEq κ] : List (κ × ν) → κ → Option ν
  | [], _ => none
  | (k', v) :: rest, k => if k = k' then some v else aget rest k

/-- JavaScript object assignment: overwrite in place when the key exists,
append otherwise (insertion order of keys is first-assignment order). -/
def oset {κ ν : Type} [DecidableEq κ] (l : List (κ × ν)) (k : κ) (v : ν) : List (κ × ν) :=
  if (aget l k).isSome then l.map (fun e => if e.1 = k then (k, v) else e) else l ++ [(k, v)]

/-- Remove all entries with the given key. -/
def eraseKey {κ ν : Type} [DecidableEq κ] (k : κ) : List (κ × ν) → List (κ × ν)
  | [] => []
  | (k', v) :: rest => if k' = k then eraseKey k rest else (k', v) :: eraseKey k rest

/-- Modelled from the spec: the bounded memoization cache used for the
Module Processing Cache and the Story Preparation Cache (the external
memoizerific library): a fixed-capacity map with least-recently-used
eviction, keyed by argument identity. The most recently used entry sits at
the head of `cache`; `next` is the monotone fresh-identity counter from
which each new computation obtains its object identity stamp. -/
structure Memo (κ ν : Type) where
  cache : List (κ × ν)
  next : Nat
deriving DecidableEq, Repr

/-- Modelled from the spec: one call through the LRU-memoized function.
A hit moves the entry to the front and returns the cached object without
recomputation; a miss computes a fresh value (stamped with `next`),
inserts it at the front and evicts beyond `limit` entries. -/
def memoCall {κ ν : Type} [DecidableEq κ] (limit : Nat) (f : κ → Nat → ν)
    (m : Memo κ ν) (k : κ) : Memo κ ν × ν :=
  match aget m.cache k with
  | some v => ({ cache := (k, v) :: eraseKey k m.cache, next := m.next }, v)
  | none =>
    let v := f k m.next
    ({ cache := ((k, v) :: m.cache).take limit, next := m.next + 1 }, v)

/-- Run a sequence of memoized calls, keeping only the cache state. -/
def runCalls {κ ν : Type} [DecidableEq κ] (limit : Nat) (f : κ → Nat → ν)
    (m : Memo κ ν) (ks : List κ) : Memo κ ν :=
  ks.foldl (fun m k => (memoCall limit f m k).1) m

/-- Story-level annotations as found on one named export of a module. -/
structure StoryAnn where
  id : StoryId
  name : String
  parameters : List (String × JSLeaf)
  args : List (String × JSLeaf)
  tags : List String
  render : Option Nat
  exportId : Nat
deriving DecidableEq, Repr

/-- Component-level annotations (the default export of a module, with the
title attached by module processing). -/
structure CompAnn where
  title : Title
  parameters : List (String × JSLeaf)
  args : List (String × JSLeaf)
  tags : List String
  render : Option Nat
deriving DecidableEq, Repr

/-- Normalized project annotations. The project level always supplies a
render implementation, so render resolution is total. -/
structure ProjAnn where
  parameters : List (String × JSLeaf)
  args : List (String × JSLeaf)
  tags : List String
  render : Nat
deriving DecidableEq, Repr

/-- The exports of a loaded module: an identity stamp (reference identity
of the exports object), the component-level annotation data of the default
export, and the story annotations of the named exports. -/
structure ModuleExports where
  ident : Nat
  metaParams : List (String × JSLeaf)
  metaArgs : List (String × JSLeaf)
  metaTags : List String
  metaRender : Option Nat
  stories : List (StoryId × StoryAnn)
deriving DecidableEq, Repr

/-- A processed module record (`CSFFile`): story annotations by id plus
component annotations, stamped with the identity of the record object. -/
structure CSFFile where
  stories : List (StoryId × StoryAnn)
  meta : CompAnn
  ident : Nat
deriving DecidableEq, Repr

/-- A prepared story. The source object is a plain record over which
`extract` iterates generically, so it is embedded as an ordered field
list, stamped with the identity of the prepared object. -/
structure PreparedStory where
  fields : List (String × JSVal)
  ident : Nat
deriving DecidableEq, Repr

/-- The id field of a prepared story. -/
def PreparedStory.sid (s : PreparedStory) : StoryId :=
  match aget s.fields "id" with
  | some (.str v) => v
  | _ => ""

/-- The parameters object of a prepared story. -/
def PreparedStory.params (s : PreparedStory) : List (String × JSLeaf) :=
  match aget s.fields "parameters" with
  | some (.obj o) => o
  | _ => []

/-- Whether the parameters of a prepared story flag it docs-only. -/
def PreparedStory.docsOnly (s : PreparedStory) : Bool :=
  aget s.params "docsOnly" = some (.bool true)

/-- The initialArgs object of a prepared story. -/
def PreparedStory.initialArgsObj (s : PreparedStory) : List (String × JSLeaf) :=
  match aget s.fields "initialArgs" with
  | some (.obj o) => o
  | _ => []

/-- Modelled from the spec: merge of two one-level objects, later keys
overriding earlier ones, preserving first-assignment key order. -/
def mergeLeafObj (base over : List (String × JSLeaf)) : List (String × JSLeaf) :=
  over.foldl (fun acc e => oset acc e.1 e.2) base

/-- Modelled from the spec: deep merge of two parameter objects, the
second argument overriding the first per key. Parameter values are
modelled as leaves, at which depth the deep merge is the per-key merge. -/
def mergeParams (base over : List (String × JSLeaf)) : List (String × JSLeaf) :=
  mergeLeafObj base over

/-- Modelled from the spec: shallow per-key merge of argument objects. -/
def mergeArgs (base over : List (String × JSLeaf)) : List (String × JSLeaf) :=
  mergeLeafObj base over

/-- Cache key of the Module Processing Cache: the identity triple
(module exports, import path, title). -/
abbrev CSFKey := ModuleExports × String × Title

/-- Cache key of the Story Preparation Cache: the identity triple
(story annotations, component annotations, project annotations). -/
abbrev PrepKey := StoryAnn × CompAnn × ProjAnn

/-- Modelled from the spec: `processCSFFile` — normalize the exports of a
loaded module into a module record, the declared title attached to the
component annotations. The `fresh` argument is the identity stamp of the
newly allocated record object. -/
def processCSFFileF (k : CSFKey) (fresh : Nat) : CSFFile :=
  { stories := k.1.stories
    meta :=
      { title := k.2.2
        parameters := k.1.metaParams
        args := k.1.metaArgs
        tags := k.1.metaTags
        render := k.1.metaRender }
    ident := fresh }

/-- Modelled from the spec: the field list produced by `prepareStory` from
the identity triple — parameters deep-merged project < component < story,
argument values shallow-merged in the same order, tags concatenated
project, component, story, and the render implementation resolved story
first, then component, then project. -/
def prepareStoryFields (k : PrepKey) : List (String × JSVal) :=
  [("id", .str k.1.id),
   ("name", .str k.1.name),
   ("title", .str k.2.1.title),
   ("tags", .arr (k.2.2.tags ++ k.2.1.tags ++ k.1.tags)),
   ("parameters", .obj (mergeParams (mergeParams k.2.2.parameters k.2.1.parameters) k.1.parameters)),
   ("initialArgs", .obj (mergeArgs (mergeArgs k.2.2.args k.2.1.args) k.1.args)),
   ("moduleExport", .num k.1.exportId),
   ("unboundStoryFn", .fn (k.1.render.getD (k.2.1.render.getD k.2.2.render)))]

/-- Modelled from the spec: `prepareStory`, allocating a fresh prepared
story object with identity stamp `fresh`. -/
def prepareStoryF (k : PrepKey) (fresh : Nat) : PreparedStory :=
  { fields := prepareStoryFields k, ident := fresh }

/-- The external module loader: path to exports, or a loader failure. -/
abbrev ImportFn := String → Except Err ModuleExports

/-- Modelled from the spec: the argument store, one value mapping per
entry identifier. -/
abbrev ArgsStore := List (StoryId × List (String × JSLeaf))

/-- Modelled from the spec: `ArgsStore.setInitial` seeds the initial
argument values of a prepared story only if none exist yet for its id. -/
def argsSetInitial (as : ArgsStore) (s : PreparedStory) : ArgsStore :=
  if (aget as s.sid).isSome then as else as ++ [(s.sid, s.initialArgsObj)]

/-- Modelled from the spec: `ArgsStore.update` merges a patch into the
current values of an entry. -/
def argsUpdate (as : ArgsStore) (id : StoryId) (patch : List (String × JSLeaf)) : ArgsStore :=
  match aget as id with
  | some cur => oset as id (mergeLeafObj cur patch)
  | none => as ++ [(id, patch)]

/-- Modelled from the spec: `StoryIndexStore.storyIdToEntry`, failing with
NotFound when the identifier is absent. -/
def storyIdToEntry (idx : StoryIndex) (id : StoryId) : Except Err IndexEntry :=
  match aget idx.entries id with
  | some e => .ok e
  | none => .error (.notFound id)

/-- CSF_CACHE_SIZE of StoryStore.ts. -/
def CSF_CACHE_SIZE : Nat := 1000

/-- STORY_CACHE_SIZE of StoryStore.ts. -/
def STORY_CACHE_SIZE : Nat := 10000

/-- EXTRACT_BATCH_SIZE of StoryStore.ts. -/
def EXTRACT_BATCH_SIZE : Nat := 20

/-- The state of one `StoryStore` object. Optional fields are the fields
the constructor leaves unset; `ready` is whether the initialization
promise has resolved; `loadLog` records, in order, every import path
handed to the module loader (the issue trace of module loads). -/
structure StoreState where
  storyIndex : Option StoryIndex
  impFn : Option ImportFn
  projAnn : Option ProjAnn
  argsStore : ArgsStore
  hooks : List StoryId
  cachedCSFFiles : Option (List (String × CSFFile))
  csfCache : Memo CSFKey CSFFile
  storyCache : Memo PrepKey PreparedStory
  ready : Bool
  loadLog : List String

/-- The state produced by the `StoryStore` constructor: empty caches and
stores, nothing set, initialization promise unresolved. -/
def StoryStore.new : StoreState :=
  { storyIndex := none
    impFn := none
    projAnn := none
    argsStore := []
    hooks := []
    cachedCSFFiles := none
    csfCache := { cache := [], next := 0 }
    storyCache := { cache := [], next := 0 }
    ready := false
    loadLog := [] }

/-- `setProjectAnnotations` (globals handling omitted: the globals store
is not touched by any other operation modelled here). -/
def setProjAnn (st : StoreState) (p : ProjAnn) : StoreState :=
  { st with projAnn := some p }

/-- `this.processCSFFileWithCache` — one call through the memoized module
processing cache of the store. -/
def processCSFFileWithCache (st : StoreState) (me : ModuleExports) (p : String) (t : Title) :
    StoreState × CSFFile :=
  let r := memoCall CSF_CACHE_SIZE processCSFFileF st.csfCache (me, p, t)
  ({ st with csfCache := r.1 }, r.2)

/-- `this.prepareStoryWithCache` — one call through the memoized story
preparation cache of the store. -/
def prepareStoryWithCache (st : StoreState) (sa : StoryAnn) (ca : CompAnn) (pa : ProjAnn) :
    StoreState × PreparedStory :=
  let r := memoCall STORY_CACHE_SIZE prepareStoryF st.storyCache (sa, ca, pa)
  ({ st with storyCache := r.1 }, r.2)

/-- `loadCSFFileByStoryId`: throws when the index or the loader is not yet
set; otherwise resolves the entry (a missing id propagates NotFound),
invokes the module loader (the path is appended to the issue trace), and
on success routes the exports through the module processing cache. A
loader failure rejects without touching the cache. -/
def loadCSFFileByStoryId (st : StoreState) (storyId : StoryId) :
    StoreState × Except Err CSFFile :=
  match st.storyIndex, st.impFn with
  | some idx, some imp =>
    match storyIdToEntry idx storyId with
    | .error e => (st, .error e)
    | .ok entry =>
      let st1 := { st with loadLog := st.loadLog ++ [entry.importPath] }
      match imp entry.importPath with
      | .error e => (st1, .error e)
      | .ok me =>
        let r := memoCall CSF_CACHE_SIZE processCSFFileF st1.csfCache (me, entry.importPath, entry.title)
        ({ st1 with csfCache := r.1 }, .ok r.2)
  | _, _ => (st, .error (.notInitialized "loadCSFFileByStoryId"))

/-- One batch: every load of the batch is issued (and its settlement
recorded) before the aggregate is inspected, so a failing sibling does
not prevent the other loads of the batch from running and caching. -/
def runBatch (st : StoreState) (batch : List (String × StoryId)) :
    StoreState × List (String × Except Err CSFFile) :=
  batch.foldl
    (fun acc e =>
      let r := loadCSFFileByStoryId acc.1 e.2
      (r.1, acc.2 ++ [(e.1, r.2)]))
    (st, [])

/-- `SynchronousPromise.all` over the settled batch: the first rejection
in issue order rejects the aggregate, otherwise the results are kept in
issue order (never completion order). -/
def seqResults : List (String × Except Err CSFFile) → Except Err (List (String × CSFFile))
  | [] => .ok []
  | (_, .error e) :: _ => .error e
  | (p, .ok c) :: rest => (seqResults rest).map (fun l => (p, c) :: l)

/-- `loadInBatches`: process the first `bs` pairs, and only once that
whole batch has settled without rejection recurse on the remainder. The
fuel argument (instantiated with the list length) makes the recursion
structural; for a positive batch size it is never exhausted. -/
def loadInBatchesGo (bs : Nat) : Nat → StoreState → List (String × StoryId) →
    StoreState × Except Err (List (String × CSFFile))
  | _, st, [] => (st, .ok [])
  | 0, st, _ => (st, .ok [])
  | fuel + 1, st, remaining =>
    let b := runBatch st (remaining.take bs)
    match seqResults b.2 with
    | .error e => (b.1, .error e)
    | .ok firstResults =>
      match loadInBatchesGo bs fuel b.1 (remaining.drop bs) with
      | (st2, .error e) => (st2, .error e)
      | (st2, .ok restResults) => (st2, .ok (firstResults ++ restResults))

/-- The final reduce of `loadAllCSFFiles`: build the path-to-record
object, keys in first-assignment order. -/
def toMapping (l : List (String × CSFFile)) : List (String × CSFFile) :=
  l.foldl (fun acc e => oset acc e.1 e.2) []

/-- `loadAllCSFFiles`: throws when the index is not yet set; otherwise
loads every entry of the index in batches of `bs` and reduces the settled
list to the import-path mapping. -/
def loadAllCSFFiles (st : StoreState) (bs : Nat) :
    StoreState × Except Err (List (String × CSFFile)) :=
  match st.storyIndex with
  | none => (st, .error (.notInitialized "loadAllCSFFiles"))
  | some idx =>
    let ip := idx.entries.map (fun e => (e.2.importPath, e.1))
    match loadInBatchesGo bs ip.length st ip with
    | (st1, .error e) => (st1, .error e)
    | (st1, .ok list) => (st1, .ok (toMapping list))

/-- The body of `cacheAllCSFFiles` once initialization has resolved: load
everything and store the mapping; a rejection leaves the snapshot as it
was. -/
def cacheAllBody (st : StoreState) : StoreState × Except Err Unit :=
  match loadAllCSFFiles st EXTRACT_BATCH_SIZE with
  | (st1, .error e) => (st1, .error e)
  | (st1, .ok m) => ({ st1 with cachedCSFFiles := some m }, .ok ())

/-- Ensure a hooks context exists for an id (`this.hooks[story.id] =
this.hooks[story.id] || new HooksContext()`). -/
def hooksEnsure (hooks : List StoryId) (id : StoryId) : List StoryId :=
  if id ∈ hooks then hooks else hooks ++ [id]

/-- `storyFromCSFFile`: throws when project annotations are not yet set,
throws when the story id is absent from the record, otherwise prepares
the story through the preparation cache, seeds its initial arguments and
ensures a hooks context exists. -/
def storyFromCSFFile (st : StoreState) (storyId : StoryId) (csfFile : CSFFile) :
    StoreState × Except Err PreparedStory :=
  match st.projAnn with
  | none => (st, .error (.notInitialized "storyFromCSFFile"))
  | some pa =>
    match aget csfFile.stories storyId with
    | none => (st, .error (.storyMissing storyId))
    | some sa =>
      let r := memoCall STORY_CACHE_SIZE prepareStoryF st.storyCache (sa, csfFile.meta, pa)
      ({ st with storyCache := r.1,
                 argsStore := argsSetInitial st.argsStore r.2,
                 hooks := hooksEnsure st.hooks r.2.sid }, .ok r.2)

/-- The body of `loadStory` once initialization has resolved. -/
def loadStoryBody (st : StoreState) (storyId : StoryId) :
    StoreState × Except Err PreparedStory :=
  match loadCSFFileByStoryId st storyId with
  | (st1, .error e) => (st1, .error e)
  | (st1, .ok csf) => storyFromCSFFile st1 storyId csf

/-- The body of `storyIdToEntry` once initialization has resolved (the
index is always set by then). -/
def storyIdToEntryBody (st : StoreState) (storyId : StoryId) :
    StoreState × Except Err IndexEntry :=
  match st.storyIndex with
  | none => (st, .error (.notInitialized "storyIdToEntry"))
  | some idx => (st, storyIdToEntry idx storyId)

/-- The body of `onStoriesChanged` once initialization has resolved:
replace the loader and/or the index entries when given, then recompute
the full-cache snapshot only when one had been materialized. -/
def onStoriesChangedBody (st : StoreState) (f : Option ImportFn) (idx : Option StoryIndex) :
    StoreState × Except Err Unit :=
  let st1 := match f with | some f' => { st with impFn := some f' } | none => st
  let st2 := match idx with | some i => { st1 with storyIndex := some i } | none => st1
  match st2.cachedCSFFiles with
  | some _ => cacheAllBody st2
  | none => (st2, .ok ())

/-- One step of the inner per-field reduce of `extract`: drop the
moduleExport field, drop function-valued fields, sort array-valued
fields, keep the rest. -/
def extractField (acc : List (String × JSVal)) (e : String × JSVal) : List (String × JSVal) :=
  if e.1 = "moduleExport" then acc
  else
    match e.2 with
    | .fn _ => acc
    | .arr l => oset acc e.1 (.arr (l.insertionSort (fun a b => a ≤ b)))
    | v => oset acc e.1 v

/-- The inner per-field reduce of `extract`, starting from a record whose
args field is the initialArgs of the prepared story. -/
def extractOne (story : PreparedStory) : List (String × JSVal) :=
  story.fields.foldl extractField [("args", .obj story.initialArgsObj)]

/-- The entry loop of `extract` over the index entries: docs entries are
skipped, each story entry is prepared from the cached record for
its path, docs-only stories are skipped unless requested, and record
order is index order. -/
def extractGo (includeDocsOnly : Bool) (cached : List (String × CSFFile)) :
    StoreState → List (StoryId × IndexEntry) →
    StoreState × Except Err (List (StoryId × List (String × JSVal)))
  | st, [] => (st, .ok [])
  | st, (storyId, entry) :: rest =>
    if entry.type = .docs then extractGo includeDocsOnly cached st rest
    else
      match aget cached entry.importPath with
      | none => (st, .error (.csfMissing entry.importPath))
      | some csf =>
        match storyFromCSFFile st storyId csf with
        | (st1, .error e) => (st1, .error e)
        | (st1, .ok story) =>
          if !includeDocsOnly && story.docsOnly then extractGo includeDocsOnly cached st1 rest
          else
            match extractGo includeDocsOnly cached st1 rest with
            | (st2, .error e) => (st2, .error e)
            | (st2, .ok recs) => (st2, .ok ((storyId, extractOne story) :: recs))

/-- `extract`: throws when the index is not yet set, throws with the
distinct cache-not-ready error when no full-cache materialization has
occurred, otherwise reduces the index entries to the snapshot. -/
def extract (st : StoreState) (includeDocsOnly : Bool) :
    StoreState × Except Err (List (StoryId × List (String × JSVal))) :=
  match st.storyIndex with
  | none => (st, .error (.notInitialized "extract"))
  | some idx =>
    match st.cachedCSFFiles with
    | none => (st, .error .cacheNotReady)
    | some cached => extractGo includeDocsOnly cached st idx.entries

/-- `fromId`: throws when the index is not yet set, throws cache-not-ready
when no full-cache materialization has occurred, and returns null (not an
error) when the identifier is unknown, because the NotFound throw of the
index store is caught and turned into null. -/
def fromId (st : StoreState) (storyId : StoryId) :
    StoreState × Except Err (Option PreparedStory) :=
  match st.storyIndex with
  | none => (st, .error (.notInitialized "fromId"))
  | some idx =>
    match st.cachedCSFFiles with
    | none => (st, .error .cacheNotReady)
    | some cached =>
      match storyIdToEntry idx storyId with
      | .error _ => (st, .ok none)
      | .ok entry =>
        match aget cached entry.importPath with
        | none => (st, .error (.csfMissing entry.importPath))
        | some csf =>
          match storyFromCSFFile st storyId csf with
          | (st1, .error e) => (st1, .error e)
          | (st1, .ok story) => (st1, .ok (some story))

/-- The value carried by a settled store operation. -/
inductive OutVal where
  | vUnit
  | vCSF (c : CSFFile)
  | vStory (s : PreparedStory)
  | vEntry (e : IndexEntry)
  | vMap (m : List (String × CSFFile))
deriving DecidableEq, Repr

/-- Outcome of a settled store operation. -/
abbrev Outcome := Except Err OutVal

/-- The operations relevant to the initialization protocol. -/
inductive Act where
  | aInit (idx : StoryIndex) (f : ImportFn) (cache : Bool)
  | aSetProjAnn (p : ProjAnn)
  | aLoadStory (id : StoryId)
  | aStoryIdToEntry (id : StoryId)
  | aOnStoriesChanged (f : Option ImportFn) (idx : Option StoryIndex)
  | aCacheAll
  | aLoadCSFDirect (id : StoryId)
  | aLoadAll

/-- Whether the operation awaits the initialization promise before its
body runs. `loadCSFFileByStoryId` and `loadAllCSFFiles` do not: they
throw immediately when their fields are unset. -/
def gatedAct : Act → Bool
  | .aLoadStory _ => true
  | .aStoryIdToEntry _ => true
  | .aOnStoriesChanged _ _ => true
  | .aCacheAll => true
  | _ => false

/-- The body of each operation, run once it is past the gate (for ungated
operations, run at once). For `aInit` this is the constructor-path body
without the pending-waiter flush, which `submit` performs at the resolve
point. -/
def actBody (st : StoreState) : Act → StoreState × Outcome
  | .aInit idx f cache =>
    let st1 := { st with storyIndex := some idx, impFn := some f, ready := true }
    if cache then
      match cacheAllBody st1 with
      | (st2, .error e) => (st2, .error e)
      | (st2, .ok _) => (st2, .ok .vUnit)
    else (st1, .ok .vUnit)
  | .aSetProjAnn p => (setProjAnn st p, .ok .vUnit)
  | .aLoadStory id =>
    match loadStoryBody st id with
    | (st1, .error e) => (st1, .error e)
    | (st1, .ok s) => (st1, .ok (.vStory s))
  | .aStoryIdToEntry id =>
    match storyIdToEntryBody st id with
    | (st1, .error e) => (st1, .error e)
    | (st1, .ok e) => (st1, .ok (.vEntry e))
  | .aOnStoriesChanged f idx =>
    match onStoriesChangedBody st f idx with
    | (st1, .error e) => (st1, .error e)
    | (st1, .ok _) => (st1, .ok .vUnit)
  | .aCacheAll =>
    match cacheAllBody st with
    | (st1, .error e) => (st1, .error e)
    | (st1, .ok _) => (st1, .ok .vUnit)
  | .aLoadCSFDirect id =>
    match loadCSFFileByStoryId st id with
    | (st1, .error e) => (st1, .error e)
    | (st1, .ok c) => (st1, .ok (.vCSF c))
  | .aLoadAll =>
    match loadAllCSFFiles st EXTRACT_BATCH_SIZE with
    | (st1, .error e) => (st1, .error e)
    | (st1, .ok m) => (st1, .ok (.vMap m))

/-- A store together with the operations suspended on the initialization
promise (FIFO) and the outcomes of the settled operations, each tagged by
its submission tag. -/
structure Sys where
  st : StoreState
  pending : List (Nat × Act)
  done : List (Nat × Outcome)

/-- Resolving the initialization promise: run every suspended operation
in the order it began waiting. -/
def flush (st : StoreState) (l : List (Nat × Act)) : StoreState × List (Nat × Outcome) :=
  l.foldl
    (fun acc e =>
      let r := actBody acc.1 e.2
      (r.1, acc.2 ++ [(e.1, r.2)]))
    (st, [])

/-- Submit one operation. A gated operation issued before the promise has
resolved suspends (no outcome is recorded). `initialize` sets the index
and the loader, resolves the promise — at which point every suspended
operation runs — and only then, when asked to, materializes the full
cache. -/
def submit (sys : Sys) (tag : Nat) (a : Act) : Sys :=
  match a with
  | .aInit idx f cache =>
    let st1 := { sys.st with storyIndex := some idx, impFn := some f, ready := true }
    let fl := flush st1 sys.pending
    let r :=
      if cache then
        match cacheAllBody fl.1 with
        | (st2, .error e) => (st2, (.error e : Outcome))
        | (st2, .ok _) => (st2, .ok .vUnit)
      else (fl.1, .ok .vUnit)
    { st := r.1, pending := [], done := sys.done ++ fl.2 ++ [(tag, r.2)] }
  | _ =>
    if gatedAct a && !sys.st.ready then
      { sys with pending := sys.pending ++ [(tag, a)] }
    else
      let r := actBody sys.st a
      { sys with st := r.1, done := sys.done ++ [(tag, r.2)] }

/-- Submit a list of tagged operations in order. -/
def runActs (sys : Sys) : List (Nat × Act) → Sys
  | [] => sys
  | (tag, a) :: rest => runActs (submit sys tag a) rest

/-- A freshly constructed store with no waiters and no outcomes. -/
def Sys.new : Sys :=
  { st := StoryStore.new, pending := [], done := [] }

/-- Fold a list of module-processing requests through the store cache. -/
def runProcessCalls (st : StoreState) (ks : List CSFKey) : StoreState :=
  ks.foldl (fun s x => (processCSFFileWithCache s x.1 x.2.1 x.2.2).1) st

/-- Fold a list of story-preparation requests through the store cache. -/
def runPrepareCalls (st : StoreState) (ks : List PrepKey) : StoreState :=
  ks.foldl (fun s x => (prepareStoryWithCache s x.1 x.2.1 x.2.2).1) st

/-- A concrete module-exports fixture. -/
def wModExp : ModuleExports :=
  { ident := 0, metaParams := [], metaArgs := [], metaTags := [], metaRender := none, stories := [] }

/-- A concrete story-annotation fixture. -/
def wStoryAnn : StoryAnn :=
  { id := "c--s", name := "S", parameters := [], args := [], tags := [], render := none, exportId := 5 }

/-- A concrete component-annotation fixture. -/
def wCompAnn : CompAnn :=
  { title := "C", parameters := [], args := [], tags := [], render := none }

/-- A concrete project-annotation fixture. -/
def wProjAnn : ProjAnn :=
  { parameters := [], args := [], tags := [], render := 7 }

/-- Concrete prepared story produced by the first preparation in the C5
scenario. -/
def c5story : PreparedStory := prepareStoryF (wStoryAnn, wCompAnn, wProjAnn) 0

/-- Concrete store for the C5 scenario: constructor state with project
annotations applied. -/
def c5st : StoreState := setProjAnn StoryStore.new wProjAnn

/-- Concrete module record for the C5 scenario. -/
def c5csf : CSFFile := { stories := [("c--s", wStoryAnn)], meta := wCompAnn, ident := 0 }

/-- The trace invariant under which a cached entry survives: the cache
keys are distinct, the entry is present, and every other key in the cache
belongs to the interference set `S`. -/
def LruInv {κ ν : Type} [DecidableEq κ] (S : Finset κ) (k : κ) (v : ν) (m : Memo κ ν) : Prop :=
  (m.cache.map Prod.fst).Nodup ∧ aget m.cache k = some v ∧
    ∀ x ∈ m.cache.map Prod.fst, x = k ∨ x ∈ S

/-- Field values surviving `extractField` are never functions and every
array value is sorted. -/
def GoodVal (v : JSVal) : Prop :=
  (∀ n, v ≠ .fn n) ∧ (∀ l, v = .arr l → l.Sorted (fun a b => a ≤ b))

/-- C8 fixture: a docs-only story annotation. -/
def c8sa : StoryAnn :=
  { id := "x--d", name := "D", parameters := [("docsOnly", .bool true)], args := [],
    tags := [], render := none, exportId := 1 }

/-- C8 fixture: an ordinary story annotation. -/
def c8sb : StoryAnn :=
  { id := "x--n", name := "N", parameters := [], args := [], tags := [], render := none,
    exportId := 2 }

/-- C8 fixture: a module record holding both stories. -/
def c8csf : CSFFile := { stories := [("x--d", c8sa), ("x--n", c8sb)], meta := wCompAnn, ident := 3 }

/-- C8 fixture: the index for the two stories. -/
def c8idx : StoryIndex :=
  ⟨[("x--d", { type := .story, importPath := "p", title := "C" }),
    ("x--n", { type := .story, importPath := "p", title := "C" })]⟩

/-- C8 fixture: an initialized store with the module record cached. -/
def c8st : StoreState :=
  { StoryStore.new with
      storyIndex := some c8idx
      projAnn := some wProjAnn
      cachedCSFFiles := some [("p", c8csf)]
      ready := true }

/-- C2 fixture: exports of the first sibling module. -/
def c2ea : ModuleExports := { wModExp with ident := 10 }

/-- C2 fixture: exports of the third sibling module. -/
def c2ec : ModuleExports := { wModExp with ident := 11 }

/-- C2 fixture: index entries of three stories in one batch. -/
def c2eA : IndexEntry := { type := .story, importPath := "qa", title := "T" }

/-- C2 fixture: the entry whose module fails to load. -/
def c2eB : IndexEntry := { type := .story, importPath := "qb", title := "T" }

/-- C2 fixture: the last sibling entry. -/
def c2eC : IndexEntry := { type := .story, importPath := "qc", title := "T" }

/-- C2 fixture: the index of the three entries. -/
def c2idx : StoryIndex := ⟨[("a", c2eA), ("b", c2eB), ("c", c2eC)]⟩

/-- C2 fixture: a loader that fails exactly on the middle path. -/
def c2f : ImportFn := fun p =>
  if p = "qa" then .ok c2ea else if p = "qc" then .ok c2ec else .error (.loadFail p)

/-- C2 fixture: the initialized store. -/
def c2st : StoreState :=
  { StoryStore.new with storyIndex := some c2idx, impFn := some c2f, ready := true }

/-- The batch decomposition of a work list: fuel-indexed chunks of `bs`
items (fuel at least the list length makes the recursion total). -/
def chunks {α : Type} (bs : Nat) : Nat → List α → List (List α)
  | _, [] => []
  | 0, _ => []
  | fuel + 1, l => l.take bs :: chunks bs fuel (l.drop bs)

/-- Strictly sequential batch processing: each batch settles wholly (all
of its loads issued and settled) before the next batch begins; results
are concatenated in batch order. -/
def processBatches (st : StoreState) :
    List (List (String × StoryId)) → StoreState × Except Err (List (String × CSFFile))
  | [] => (st, .ok [])
  | b :: rest =>
    let r := runBatch st b
    match seqResults r.2 with
    | .error e => (r.1, .error e)
    | .ok firstResults =>
      match processBatches r.1 rest with
      | (st2, .error e) => (st2, .error e)
      | (st2, .ok more) => (st2, .ok (firstResults ++ more))

/-- C4 fixture: five story entries with distinct import paths. -/
def c4idx : StoryIndex :=
  ⟨[("s1", { type := .story, importPath := "r1", title := "T" }),
    ("s2", { type := .story, importPath := "r2", title := "T" }),
    ("s3", { type := .story, importPath := "r3", title := "T" }),
    ("s4", { type := .story, importPath := "r4", title := "T" }),
    ("s5", { type := .story, importPath := "r5", title := "T" })]⟩

/-- C4 fixture: a loader that succeeds on every path. -/
def c4f : ImportFn := fun _ => .ok wModExp

/-- C4 fixture: the initialized store for the batching scenario. -/
def c4st : StoreState :=
  { StoryStore.new with storyIndex := some c4idx, impFn := some c4f, ready := true }

/-- C4 fixture: the mapping loadAllCSFFiles returns with batch size 2. -/
def c4m : List (String × CSFFile) :=
  [("r1", { stories := [], meta := { title := "T", parameters := [], args := [], tags := [], render := none }, ident := 0 }),
   ("r2", { stories := [], meta := { title := "T", parameters := [], args := [], tags := [], render := none }, ident := 1 }),
   ("r3", { stories := [], meta := { title := "T", parameters := [], args := [], tags := [], render := none }, ident := 2 }),
   ("r4", { stories := [], meta := { title := "T", parameters := [], args := [], tags := [], render := none }, ident := 3 }),
   ("r5", { stories := [], meta := { title := "T", parameters := [], args := [], tags := [], render := none }, ident := 4 })]

/-- Well-formedness of the story preparation cache: every cached prepared
story has the field content computed by `prepareStory` from its key. The
constructor state satisfies it and every operation preserves it. -/
def WfStoryCache (m : Memo PrepKey PreparedStory) : Prop :=
  ∀ e ∈ m.cache, e.2.fields = prepareStoryFields e.1

/-- Whether an index entry is story-kind. -/
def entryIsStory (ie : IndexEntry) : Bool :=
  match ie.type with
  | .story => true
  | .docs => false

/-- Concrete initialized store with a materialized (empty) snapshot and an
empty index, for the C6 counterexample. -/
def c6st : StoreState :=
  { StoryStore.new with
      storyIndex := some ⟨[]⟩
      impFn := some (fun p => .error (.loadFail p))
      projAnn := some wProjAnn
      cachedCSFFiles := some []
      ready := true }

section LruLemmas

variable {κ ν : Type} [DecidableEq κ]

theorem aget_cons_self {l : List (κ × ν)} {k : κ} {v : ν} : aget ((k, v) :: l) k = some v := by
  simp [aget]

theorem aget_cons_ne {l : List (κ × ν)} {k k' : κ} {v : ν} (h : k ≠ k') :
    aget ((k', v) :: l) k = aget l k := by
  simp [aget, h]

theorem aget_eq_none {l : List (κ × ν)} {k : κ} (h : k ∉ l.map Prod.fst) :
    aget l k = none := by
  induction l with
  | nil => rfl
  | cons e t ih =>
    simp only [List.map_cons, List.mem_cons] at h
    push_neg at h
    simp [aget, h.1, ih h.2]

theorem mem_keys_of_aget_isSome {l : List (κ × ν)} {k : κ} (h : (aget l k).isSome) :
    k ∈ l.map Prod.fst := by
  by_contra hk
  rw [aget_eq_none hk] at h
  simp at h

theorem aget_isSome_of_mem {l : List (κ × ν)} {k : κ} (h : k ∈ l.map Prod.fst) :
    (aget l k).isSome := by
  induction l with
  | nil => simp at h
  | cons e t ih =>
    by_cases hk : k = e.1
    · simp [aget, hk]
    · simp only [List.map_cons, List.mem_cons] at h
      rcases h with h | h
      · exact absurd h hk
      · simpa [aget, hk] using ih h

theorem aget_eraseKey_ne {l : List (κ × ν)} {k k' : κ} (h : k ≠ k') :
    aget (eraseKey k' l) k = aget l k := by
  induction l with
  | nil => rfl
  | cons e t ih =>
    cases e with
    | mk a b =>
      by_cases he : a = k'
      · have hk : k ≠ a := fun hh => h (hh.trans he)
        have h1 : eraseKey k' ((a, b) :: t) = eraseKey k' t := by simp [eraseKey, he]
        rw [h1, ih]
        simp [aget, hk]
      · by_cases hke : k = a
        · subst hke
          simp [eraseKey, he, aget]
        · simp [eraseKey, he, aget, hke, ih]

theorem keys_eraseKey_subset {l : List (κ × ν)} {k' x : κ}
    (h : x ∈ (eraseKey k' l).map Prod.fst) : x ∈ l.map Prod.fst := by
  induction l with
  | nil => simp [eraseKey] at h
  | cons e t ih =>
    by_cases he : e.1 = k'
    · simp only [eraseKey, he, if_pos] at h
      simp [ih h]
    · simp only [eraseKey, he, if_neg, not_false_iff, List.map_cons, List.mem_cons] at h
      rcases h with h | h
      · simp [h]
      · simp [ih h]

theorem not_mem_keys_eraseKey {l : List (κ × ν)} {k' : κ} :
    k' ∉ (eraseKey k' l).map Prod.fst := by
  induction l with
  | nil => simp [eraseKey]
  | cons e t ih =>
    by_cases he : e.1 = k'
    · simpa [eraseKey, he] using ih
    · simp only [eraseKey, he, if_neg, not_false_iff, List.map_cons, List.mem_cons]
      push_neg
      exact ⟨fun hh => he hh.symm, ih⟩

theorem nodup_keys_eraseKey {l : List (κ × ν)} {k' : κ}
    (h : (l.map Prod.fst).Nodup) : ((eraseKey k' l).map Prod.fst).Nodup := by
  induction l with
  | nil => simp [eraseKey]
  | cons e t ih =>
    simp only [List.map_cons, List.nodup_cons] at h
    by_cases he : e.1 = k'
    · simp only [eraseKey, he, if_pos]
      exact ih h.2
    · simp only [eraseKey, he, if_neg, not_false_iff, List.map_cons, List.nodup_cons]
      exact ⟨fun hc => h.1 (keys_eraseKey_subset hc), ih h.2⟩

theorem nodup_length_le_card {l : List κ} {s : Finset κ}
    (hl : l.Nodup) (hsub : ∀ x ∈ l, x ∈ s) : l.length ≤ s.card := by
  induction l generalizing s with
  | nil => simp
  | cons a t ih =>
    rcases List.nodup_cons.1 hl with ⟨ha, ht⟩
    have has : a ∈ s := hsub a (by simp)
    have hsub' : ∀ x ∈ t, x ∈ s.erase a := by
      intro x hx
      exact Finset.mem_erase.2 ⟨fun he => ha (he ▸ hx), hsub x (by simp [hx])⟩
    have h1 := ih ht hsub'
    have h2 := Finset.card_erase_of_mem has
    have h3 := Finset.card_pos.2 ⟨a, has⟩
    simp only [List.length_cons]
    omega

theorem memoCall_hit {limit : Nat} {f : κ → Nat → ν} {m : Memo κ ν} {k : κ} {v : ν}
    (h : aget m.cache k = some v) :
    memoCall limit f m k = ({ cache := (k, v) :: eraseKey k m.cache, next := m.next }, v) := by
  simp [memoCall, h]

theorem memoCall_miss {limit : Nat} {f : κ → Nat → ν} {m : Memo κ ν} {k : κ}
    (h : aget m.cache k = none) :
    memoCall limit f m k =
      ({ cache := ((k, f k m.next) :: m.cache).take limit, next := m.next + 1 }, f k m.next) := by
  simp [memoCall, h]

theorem lruInv_step (limit : Nat) (f : κ → Nat → ν) {S : Finset κ} {k : κ} {v : ν}
    {m : Memo κ ν} (h : LruInv S k v m) {k' : κ} (hk'S : k' ∈ S) (hne : k' ≠ k)
    (hcard : S.card < limit) : LruInv S k v (memoCall limit f m k').1 := by
  obtain ⟨hnd, hget, hsub⟩ := h
  cases hcase : aget m.cache k' with
  | some v'' =>
    rw [memoCall_hit hcase]
    refine ⟨?_, ?_, ?_⟩
    · simp only [List.map_cons, List.nodup_cons]
      exact ⟨not_mem_keys_eraseKey, nodup_keys_eraseKey hnd⟩
    · rw [aget_cons_ne (Ne.symm hne), aget_eraseKey_ne (Ne.symm hne)]
      exact hget
    · intro x hx
      simp only [List.map_cons, List.mem_cons] at hx
      rcases hx with rfl | hx
      · exact Or.inr hk'S
      · exact hsub x (keys_eraseKey_subset hx)
  | none =>
    rw [memoCall_miss hcase]
    have hk'mem : k' ∉ m.cache.map Prod.fst := by
      intro hc
      have hs := aget_isSome_of_mem hc
      rw [hcase] at hs
      simp at hs
    have hlen : m.cache.length ≤ S.card := by
      have hkeys : ∀ x ∈ m.cache.map Prod.fst, x ∈ (insert k S).erase k' := by
        intro x hx
        refine Finset.mem_erase.2 ⟨fun he => hk'mem (he ▸ hx), ?_⟩
        rcases hsub x hx with rfl | hxs
        · exact Finset.mem_insert_self x S
        · exact Finset.mem_insert_of_mem hxs
      have h1 := nodup_length_le_card hnd hkeys
      have hk'in : k' ∈ insert k S := Finset.mem_insert_of_mem hk'S
      have h2 := Finset.card_erase_of_mem hk'in
      have h3 := Finset.card_insert_le k S
      have h4 : (m.cache.map Prod.fst).length = m.cache.length := List.length_map _ _
      omega
    have htake : (((k', f k' m.next) :: m.cache).take limit) = (k', f k' m.next) :: m.cache :=
      List.take_of_length_le (by simp; omega)
    refine ⟨?_, ?_, ?_⟩
    · rw [htake]
      simp only [List.map_cons, List.nodup_cons]
      exact ⟨hk'mem, hnd⟩
    · rw [htake, aget_cons_ne (Ne.symm hne)]
      exact hget
    · rw [htake]
      intro x hx
      simp only [List.map_cons, List.mem_cons] at hx
      rcases hx with rfl | hx
      · exact Or.inr hk'S
      · exact hsub x hx

theorem runCalls_nil {limit : Nat} {f : κ → Nat → ν} {m : Memo κ ν} :
    runCalls limit f m [] = m := rfl

theorem runCalls_cons {limit : Nat} {f : κ → Nat → ν} {m : Memo κ ν} {k : κ} {ks : List κ} :
    runCalls limit f m (k :: ks) = runCalls limit f (memoCall limit f m k).1 ks := rfl

theorem lruInv_runCalls (limit : Nat) (f : κ → Nat → ν) {S : Finset κ} {k : κ} {v : ν}
    (hcard : S.card < limit) :
    ∀ (ks : List κ) (m : Memo κ ν), LruInv S k v m → (∀ x ∈ ks, x ∈ S ∧ x ≠ k) →
      LruInv S k v (runCalls limit f m ks)
  | [], _, h, _ => h
  | k' :: rest, m, h, hks => by
    rw [runCalls_cons]
    have hhead := hks k' (by simp)
    exact lruInv_runCalls limit f hcard rest (memoCall limit f m k').1
      (lruInv_step limit f h hhead.1 hhead.2 hcard)
      (fun x hx => hks x (by simp [hx]))

/-- The first-call-then-interference-then-second-call scenario on a fresh
memoized function: when fewer than `limit` distinct other keys are
requested in between, the second call is a hit — it returns the identical
first object and performs no recomputation (the fresh counter is
unchanged). -/
theorem memo_lru_second_call (limit : Nat) (f : κ → Nat → ν) (k : κ) (ks : List κ)
    (hne : ∀ x ∈ ks, x ≠ k) (hcard : ks.toFinset.card < limit) :
    (memoCall limit f (runCalls limit f (memoCall limit f ⟨[], 0⟩ k).1 ks) k).2
        = (memoCall limit f (⟨[], 0⟩ : Memo κ ν) k).2 ∧
      (memoCall limit f (runCalls limit f (memoCall limit f ⟨[], 0⟩ k).1 ks) k).1.next
        = (runCalls limit f (memoCall limit f ⟨[], 0⟩ k).1 ks).next := by
  have hlim : 1 ≤ limit := by omega
  have htake : List.take limit [(k, f k 0)] = [(k, f k 0)] :=
    List.take_of_length_le (by simp; omega)
  have hm1 : memoCall limit f (⟨[], 0⟩ : Memo κ ν) k
      = ({ cache := [(k, f k 0)], next := 1 }, f k 0) := by
    rw [memoCall_miss (m := ⟨[], 0⟩) rfl]
    rw [htake]
  have hinv1 : LruInv ks.toFinset k (f k 0) (memoCall limit f (⟨[], 0⟩ : Memo κ ν) k).1 := by
    rw [hm1]
    exact ⟨by simp, aget_cons_self, by simp⟩
  have hinv2 := lruInv_runCalls limit f hcard ks _ hinv1
    (fun x hx => ⟨List.mem_toFinset.2 hx, hne x hx⟩)
  rw [memoCall_hit hinv2.2.1, hm1]
  exact ⟨rfl, rfl⟩

end LruLemmas

theorem runProcessCalls_csfCache (ks : List CSFKey) :
    ∀ st : StoreState, (runProcessCalls st ks).csfCache
      = runCalls CSF_CACHE_SIZE processCSFFileF st.csfCache ks := by
  induction ks with
  | nil => intro st; rfl
  | cons x rest ih =>
    intro st
    rw [show runProcessCalls st (x :: rest)
        = runProcessCalls (processCSFFileWithCache st x.1 x.2.1 x.2.2).1 rest from rfl]
    rw [ih, runCalls_cons]
    rfl

theorem runPrepareCalls_storyCache (ks : List PrepKey) :
    ∀ st : StoreState, (runPrepareCalls st ks).storyCache
      = runCalls STORY_CACHE_SIZE prepareStoryF st.storyCache ks := by
  induction ks with
  | nil => intro st; rfl
  | cons x rest ih =>
    intro st
    rw [show runPrepareCalls st (x :: rest)
        = runPrepareCalls (prepareStoryWithCache st x.1 x.2.1 x.2.2).1 rest from rfl]
    rw [ih, runCalls_cons]
    rfl

/-- C1: a second `processCSFFileWithCache` call with the same identity
triple (module exports, import path, title) returns the identical cached
object as the first without recomputation, provided fewer than 1000
distinct triples were requested in between (LRU bound 1000); likewise a
repeated `prepareStoryWithCache` triple under its LRU bound of 10000; and
two calls differing only in the title yield different results. -/
theorem c1_cache_identity
    (e : ModuleExports) (p : String) (t t' : Title) (ks : List CSFKey)
    (sa : StoryAnn) (ca : CompAnn) (pa : ProjAnn) (ks2 : List PrepKey)
    (hne : ∀ x ∈ ks, x ≠ (e, p, t))
    (hcard : ks.toFinset.card < CSF_CACHE_SIZE)
    (ht : t' ≠ t)
    (hne2 : ∀ x ∈ ks2, x ≠ (sa, ca, pa))
    (hcard2 : ks2.toFinset.card < STORY_CACHE_SIZE) :
    (processCSFFileWithCache (runProcessCalls (processCSFFileWithCache StoryStore.new e p t).1 ks) e p t).2
        = (processCSFFileWithCache StoryStore.new e p t).2 ∧
      (processCSFFileWithCache (runProcessCalls (processCSFFileWithCache StoryStore.new e p t).1 ks) e p t).1.csfCache.next
        = (runProcessCalls (processCSFFileWithCache StoryStore.new e p t).1 ks).csfCache.next ∧
      (processCSFFileWithCache (processCSFFileWithCache StoryStore.new e p t).1 e p t').2
        ≠ (processCSFFileWithCache StoryStore.new e p t).2 ∧
      (prepareStoryWithCache (runPrepareCalls (prepareStoryWithCache StoryStore.new sa ca pa).1 ks2) sa ca pa).2
        = (prepareStoryWithCache StoryStore.new sa ca pa).2 ∧
      (prepareStoryWithCache (runPrepareCalls (prepareStoryWithCache StoryStore.new sa ca pa).1 ks2) sa ca pa).1.storyCache.next
        = (runPrepareCalls (prepareStoryWithCache StoryStore.new sa ca pa).1 ks2).storyCache.next := by
  have h1 := memo_lru_second_call CSF_CACHE_SIZE processCSFFileF (e, p, t) ks hne hcard
  have h2 := memo_lru_second_call STORY_CACHE_SIZE prepareStoryF (sa, ca, pa) ks2 hne2 hcard2
  have key1 : (runProcessCalls (processCSFFileWithCache StoryStore.new e p t).1 ks).csfCache
      = runCalls CSF_CACHE_SIZE processCSFFileF
          (memoCall CSF_CACHE_SIZE processCSFFileF ⟨[], 0⟩ (e, p, t)).1 ks :=
    runProcessCalls_csfCache ks _
  have key2 : (runPrepareCalls (prepareStoryWithCache StoryStore.new sa ca pa).1 ks2).storyCache
      = runCalls STORY_CACHE_SIZE prepareStoryF
          (memoCall STORY_CACHE_SIZE prepareStoryF ⟨[], 0⟩ (sa, ca, pa)).1 ks2 :=
    runPrepareCalls_storyCache ks2 _
  refine ⟨?_, ?_, ?_, ?_, ?_⟩
  · show (memoCall CSF_CACHE_SIZE processCSFFileF
        (runProcessCalls (processCSFFileWithCache StoryStore.new e p t).1 ks).csfCache (e, p, t)).2
      = (memoCall CSF_CACHE_SIZE processCSFFileF ⟨[], 0⟩ (e, p, t)).2
    rw [key1]
    exact h1.1
  · show (memoCall CSF_CACHE_SIZE processCSFFileF
        (runProcessCalls (processCSFFileWithCache StoryStore.new e p t).1 ks).csfCache (e, p, t)).1.next
      = (runProcessCalls (processCSFFileWithCache StoryStore.new e p t).1 ks).csfCache.next
    rw [key1]
    exact h1.2
  · have hk' : ((e, p, t') : CSFKey) ≠ (e, p, t) := by
      simp only [ne_eq, Prod.mk.injEq, not_and]
      intro _ _
      exact ht
    have htake : List.take CSF_CACHE_SIZE [((e, p, t), processCSFFileF (e, p, t) 0)]
        = [((e, p, t), processCSFFileF (e, p, t) 0)] :=
      List.take_of_length_le (by simp [CSF_CACHE_SIZE])
    have hm1 : memoCall CSF_CACHE_SIZE processCSFFileF (⟨[], 0⟩ : Memo CSFKey CSFFile) (e, p, t)
        = ({ cache := [((e, p, t), processCSFFileF (e, p, t) 0)], next := 1 },
           processCSFFileF (e, p, t) 0) := by
      rw [memoCall_miss (m := ⟨[], 0⟩) rfl]
      rw [htake]
    show (memoCall CSF_CACHE_SIZE processCSFFileF
        (memoCall CSF_CACHE_SIZE processCSFFileF ⟨[], 0⟩ (e, p, t)).1 (e, p, t')).2
      ≠ (memoCall CSF_CACHE_SIZE processCSFFileF ⟨[], 0⟩ (e, p, t)).2
    rw [hm1]
    rw [memoCall_miss (aget_eq_none (by simp [hk']))]
    intro hcontra
    have hident := congrArg CSFFile.ident hcontra
    simp [processCSFFileF] at hident
  · show (memoCall STORY_CACHE_SIZE prepareStoryF
        (runPrepareCalls (prepareStoryWithCache StoryStore.new sa ca pa).1 ks2).storyCache (sa, ca, pa)).2
      = (memoCall STORY_CACHE_SIZE prepareStoryF ⟨[], 0⟩ (sa, ca, pa)).2
    rw [key2]
    exact h2.1
  · show (memoCall STORY_CACHE_SIZE prepareStoryF
        (runPrepareCalls (prepareStoryWithCache StoryStore.new sa ca pa).1 ks2).storyCache (sa, ca, pa)).1.next
      = (runPrepareCalls (prepareStoryWithCache StoryStore.new sa ca pa).1 ks2).storyCache.next
    rw [key2]
    exact h2.2

/-- Witness for C1 at concrete inputs with no interfering requests. -/
theorem c1_cache_identity_wit :
    ((∀ x ∈ ([] : List CSFKey), x ≠ (wModExp, "a", "T")) ∧
      ([] : List CSFKey).toFinset.card < CSF_CACHE_SIZE ∧
      ("U" : Title) ≠ "T" ∧
      (∀ x ∈ ([] : List PrepKey), x ≠ (wStoryAnn, wCompAnn, wProjAnn)) ∧
      ([] : List PrepKey).toFinset.card < STORY_CACHE_SIZE) ∧
    ((processCSFFileWithCache (runProcessCalls (processCSFFileWithCache StoryStore.new wModExp "a" "T").1 []) wModExp "a" "T").2
        = (processCSFFileWithCache StoryStore.new wModExp "a" "T").2 ∧
      (processCSFFileWithCache (runProcessCalls (processCSFFileWithCache StoryStore.new wModExp "a" "T").1 []) wModExp "a" "T").1.csfCache.next
        = (runProcessCalls (processCSFFileWithCache StoryStore.new wModExp "a" "T").1 []).csfCache.next ∧
      (processCSFFileWithCache (processCSFFileWithCache StoryStore.new wModExp "a" "T").1 wModExp "a" "U").2
        ≠ (processCSFFileWithCache StoryStore.new wModExp "a" "T").2 ∧
      (prepareStoryWithCache (runPrepareCalls (prepareStoryWithCache StoryStore.new wStoryAnn wCompAnn wProjAnn).1 []) wStoryAnn wCompAnn wProjAnn).2
        = (prepareStoryWithCache StoryStore.new wStoryAnn wCompAnn wProjAnn).2 ∧
      (prepareStoryWithCache (runPrepareCalls (prepareStoryWithCache StoryStore.new wStoryAnn wCompAnn wProjAnn).1 []) wStoryAnn wCompAnn wProjAnn).1.storyCache.next
        = (runPrepareCalls (prepareStoryWithCache StoryStore.new wStoryAnn wCompAnn wProjAnn).1 []).storyCache.next) :=
  ⟨⟨by simp, by simp [CSF_CACHE_SIZE], by decide, by simp, by simp [STORY_CACHE_SIZE]⟩,
    c1_cache_identity wModExp "a" "T" "U" [] wStoryAnn wCompAnn wProjAnn []
      (by simp) (by simp [CSF_CACHE_SIZE]) (by decide) (by simp) (by simp [STORY_CACHE_SIZE])⟩

section StoreLemmas

variable {κ ν : Type} [DecidableEq κ]

theorem aget_append_right {l l2 : List (κ × ν)} {k : κ} (h : aget l k = none) :
    aget (l ++ l2) k = aget l2 k := by
  induction l with
  | nil => rfl
  | cons e t ih =>
    cases e with
    | mk a b =>
      by_cases hk : k = a
      · rw [hk] at h
        simp [aget] at h
      · rw [List.cons_append, aget_cons_ne hk, ih]
        rwa [aget_cons_ne hk] at h

theorem aget_map_replace {l : List (κ × ν)} {k : κ} {v : ν} (h : (aget l k).isSome) :
    aget (l.map (fun e => if e.1 = k then (k, v) else e)) k = some v := by
  induction l with
  | nil => simp [aget] at h
  | cons e t ih =>
    cases e with
    | mk a b =>
      by_cases hk : a = k
      · rw [List.map_cons, show (if ((a, b) : κ × ν).1 = k then (k, v) else (a, b)) = (k, v) from if_pos hk]
        exact aget_cons_self
      · have hka : k ≠ a := fun hh => hk hh.symm
        rw [List.map_cons, show (if ((a, b) : κ × ν).1 = k then (k, v) else (a, b)) = (a, b) from if_neg hk]
        rw [aget_cons_ne hka]
        refine ih ?_
        rwa [aget_cons_ne hka] at h

theorem aget_oset_self {l : List (κ × ν)} {k : κ} {v : ν} : aget (oset l k v) k = some v := by
  unfold oset
  cases hcase : (aget l k).isSome
  · simp only [hcase, Bool.false_eq_true, if_neg, not_false_iff]
    rw [aget_append_right (by simpa [Option.isSome_iff_exists] using hcase)]
    exact aget_cons_self
  · simp only [hcase, if_pos]
    exact aget_map_replace hcase

theorem aget_argsSetInitial_isSome {as : ArgsStore} {s : PreparedStory} :
    (aget (argsSetInitial as s) s.sid).isSome := by
  unfold argsSetInitial
  cases hcase : (aget as s.sid).isSome
  · simp only [hcase, Bool.false_eq_true, if_neg, not_false_iff]
    rw [aget_append_right (by simpa [Option.isSome_iff_exists] using hcase)]
    simp [aget_cons_self]
  · simp [hcase]

theorem aget_argsUpdate_isSome {as : ArgsStore} {id : StoryId}
    {p : List (String × JSLeaf)} (h : (aget as id).isSome) :
    (aget (argsUpdate as id p) id).isSome := by
  unfold argsUpdate
  cases hcase : aget as id with
  | none => rw [hcase] at h; simp at h
  | some cur => simp [aget_oset_self]

theorem argsSetInitial_of_isSome {as : ArgsStore} {s : PreparedStory}
    (h : (aget as s.sid).isSome) : argsSetInitial as s = as := by
  simp [argsSetInitial, h]

theorem aget_memoCall_self {limit : Nat} (hlim : 0 < limit) (f : κ → Nat → ν)
    (m : Memo κ ν) (k : κ) :
    aget (memoCall limit f m k).1.cache k = some (memoCall limit f m k).2 := by
  cases hcase : aget m.cache k with
  | none =>
    rw [memoCall_miss hcase]
    cases limit with
    | zero => omega
    | succ n => simp [List.take_succ_cons, aget_cons_self]
  | some v =>
    rw [memoCall_hit hcase]
    exact aget_cons_self

end StoreLemmas

theorem storyFromCSFFile_projAnn (st : StoreState) (sid : StoryId) (csf : CSFFile) :
    (storyFromCSFFile st sid csf).1.projAnn = st.projAnn := by
  unfold storyFromCSFFile
  repeat' split
  all_goals rfl

theorem storyFromCSFFile_snd_ok {st : StoreState} {sid : StoryId} {csf : CSFFile}
    {pa : ProjAnn} {sa : StoryAnn} (hpa : st.projAnn = some pa)
    (hsa : aget csf.stories sid = some sa) :
    (storyFromCSFFile st sid csf).2
      = .ok (memoCall STORY_CACHE_SIZE prepareStoryF st.storyCache (sa, csf.meta, pa)).2 := by
  unfold storyFromCSFFile
  rw [hpa, hsa]

theorem storyFromCSFFile_storyCache {st : StoreState} {sid : StoryId} {csf : CSFFile}
    {pa : ProjAnn} {sa : StoryAnn} (hpa : st.projAnn = some pa)
    (hsa : aget csf.stories sid = some sa) :
    (storyFromCSFFile st sid csf).1.storyCache
      = (memoCall STORY_CACHE_SIZE prepareStoryF st.storyCache (sa, csf.meta, pa)).1 := by
  unfold storyFromCSFFile
  rw [hpa, hsa]

theorem storyFromCSFFile_argsStore {st : StoreState} {sid : StoryId} {csf : CSFFile}
    {pa : ProjAnn} {sa : StoryAnn} (hpa : st.projAnn = some pa)
    (hsa : aget csf.stories sid = some sa) :
    (storyFromCSFFile st sid csf).1.argsStore
      = argsSetInitial st.argsStore (memoCall STORY_CACHE_SIZE prepareStoryF st.storyCache (sa, csf.meta, pa)).2 := by
  unfold storyFromCSFFile
  rw [hpa, hsa]

/-- C5: preparing the same entry twice via `storyFromCSFFile` from the
same module record returns the identical prepared story (the preparation
cache hit), and the second argument-seeding does not revert an argument
mutation a caller made in between. -/
theorem c5_idempotent_seeding (st st1 : StoreState) (sid : StoryId) (csf : CSFFile)
    (story1 : PreparedStory) (patch : List (String × JSLeaf)) (pa : ProjAnn) (sa : StoryAnn)
    (hpa : st.projAnn = some pa) (hsa : aget csf.stories sid = some sa)
    (hfirst : storyFromCSFFile st sid csf = (st1, .ok story1)) :
    (storyFromCSFFile { st1 with argsStore := argsUpdate st1.argsStore story1.sid patch } sid csf).2
        = .ok story1 ∧
      (storyFromCSFFile { st1 with argsStore := argsUpdate st1.argsStore story1.sid patch } sid csf).1.argsStore
        = argsUpdate st1.argsStore story1.sid patch := by
  have hfst : (storyFromCSFFile st sid csf).1 = st1 := congrArg Prod.fst hfirst
  have hsnd : (storyFromCSFFile st sid csf).2 = .ok story1 := congrArg Prod.snd hfirst
  have hstory1 : (memoCall STORY_CACHE_SIZE prepareStoryF st.storyCache (sa, csf.meta, pa)).2 = story1 := by
    have := (storyFromCSFFile_snd_ok hpa hsa).symm.trans hsnd
    exact Except.ok.inj this
  have hproj1 : st1.projAnn = some pa := by
    rw [← hfst, storyFromCSFFile_projAnn]
    exact hpa
  have hcache1 : st1.storyCache = (memoCall STORY_CACHE_SIZE prepareStoryF st.storyCache (sa, csf.meta, pa)).1 := by
    rw [← hfst]
    exact storyFromCSFFile_storyCache hpa hsa
  have hargs1 : (aget st1.argsStore story1.sid).isSome := by
    rw [← hfst, storyFromCSFFile_argsStore hpa hsa, hstory1]
    exact aget_argsSetInitial_isSome
  have hhit : aget st1.storyCache.cache (sa, csf.meta, pa) = some story1 := by
    rw [hcache1, ← hstory1]
    exact aget_memoCall_self (by norm_num [STORY_CACHE_SIZE]) _ _ _
  have hproj2 : ({ st1 with argsStore := argsUpdate st1.argsStore story1.sid patch } : StoreState).projAnn
      = some pa := hproj1
  have hsecond : (memoCall STORY_CACHE_SIZE prepareStoryF
      ({ st1 with argsStore := argsUpdate st1.argsStore story1.sid patch } : StoreState).storyCache
      (sa, csf.meta, pa)).2 = story1 := by
    show (memoCall STORY_CACHE_SIZE prepareStoryF st1.storyCache (sa, csf.meta, pa)).2 = story1
    rw [memoCall_hit hhit]
  constructor
  · rw [storyFromCSFFile_snd_ok hproj2 hsa, hsecond]
  · rw [storyFromCSFFile_argsStore hproj2 hsa, hsecond]
    apply argsSetInitial_of_isSome
    exact aget_argsUpdate_isSome hargs1

/-- Witness for C5: prepare, mutate the argument value, prepare again. -/
theorem c5_idempotent_seeding_wit :
    (c5st.projAnn = some wProjAnn ∧ aget c5csf.stories "c--s" = some wStoryAnn ∧
      storyFromCSFFile c5st "c--s" c5csf
        = ((storyFromCSFFile c5st "c--s" c5csf).1, .ok c5story)) ∧
    ((storyFromCSFFile { (storyFromCSFFile c5st "c--s" c5csf).1 with
        argsStore := argsUpdate (storyFromCSFFile c5st "c--s" c5csf).1.argsStore c5story.sid
          [("x", .num 9)] } "c--s" c5csf).2 = .ok c5story ∧
      (storyFromCSFFile { (storyFromCSFFile c5st "c--s" c5csf).1 with
        argsStore := argsUpdate (storyFromCSFFile c5st "c--s" c5csf).1.argsStore c5story.sid
          [("x", .num 9)] } "c--s" c5csf).1.argsStore
        = argsUpdate (storyFromCSFFile c5st "c--s" c5csf).1.argsStore c5story.sid
            [("x", .num 9)]) :=
  ⟨⟨rfl, by decide, rfl⟩,
    c5_idempotent_seeding c5st ((storyFromCSFFile c5st "c--s" c5csf).1) "c--s" c5csf c5story
      [("x", .num 9)] wProjAnn wStoryAnn rfl (by decide) rfl⟩

/-- C7: `extract` requires a prior full-cache materialization and fails
with the cache-not-ready error otherwise; that error is distinct from the
not-initialized error raised when `extract` is called before
initialization. -/
theorem c7_extract_cache_not_ready (st : StoreState) (b : Bool) :
    (∀ idx, st.storyIndex = some idx → st.cachedCSFFiles = none →
        (extract st b).2 = .error .cacheNotReady) ∧
      (st.storyIndex = none → (extract st b).2 = .error (.notInitialized "extract")) ∧
      (∀ s, (Err.cacheNotReady : Err) ≠ .notInitialized s) := by
  refine ⟨?_, ?_, ?_⟩
  · intro idx hidx hcache
    simp [extract, hidx, hcache]
  · intro h
    simp [extract, h]
  · intro s h
    exact Err.noConfusion h

/-- Witness for C7: a store with an index but no materialized cache, and
the constructor state. -/
theorem c7_extract_cache_not_ready_wit :
    (extract { StoryStore.new with storyIndex := some ⟨[]⟩ } true).2 = .error .cacheNotReady ∧
      (extract StoryStore.new true).2 = .error (.notInitialized "extract") ∧
      (Err.cacheNotReady : Err) ≠ .notInitialized "extract" :=
  ⟨(c7_extract_cache_not_ready { StoryStore.new with storyIndex := some ⟨[]⟩ } true).1 ⟨[]⟩ rfl rfl,
    (c7_extract_cache_not_ready StoryStore.new true).2.1 rfl,
    (c7_extract_cache_not_ready StoryStore.new true).2.2 "extract"⟩

/-- C6 counterexample: looking up an unknown story identifier through
`fromId` yields the silently-empty null result, not a rejected operation,
because the NotFound throw of the index lookup is caught and replaced by
null. -/
theorem c6_fromId_null_cex : (fromId c6st "missing").2 = .ok none := rfl

/-- C6 amended: every lookup operation surfaces an unknown identifier as
a discriminated error, except `fromId` (and hence `raw`), which catches
the NotFound error and returns null instead. -/
theorem c6_amended_errors (st : StoreState) (idx : StoryIndex) (id : StoryId) (f : ImportFn)
    (hidx : st.storyIndex = some idx) (himp : st.impFn = some f)
    (hcached : ∃ c, st.cachedCSFFiles = some c)
    (hmiss : aget idx.entries id = none) :
    (fromId st id).2 = .ok none ∧
      storyIdToEntry idx id = .error (.notFound id) ∧
      (loadCSFFileByStoryId st id).2 = .error (.notFound id) := by
  obtain ⟨c, hc⟩ := hcached
  have hentry : storyIdToEntry idx id = .error (.notFound id) := by
    simp [storyIdToEntry, hmiss]
  refine ⟨?_, hentry, ?_⟩
  · simp [fromId, hidx, hc, hentry]
  · simp [loadCSFFileByStoryId, hidx, himp, hentry]

/-- Witness for C6 amended at the concrete counterexample store. -/
theorem c6_amended_errors_wit :
    (fromId c6st "missing").2 = .ok none ∧
      storyIdToEntry ⟨[]⟩ "missing" = .error (.notFound "missing") ∧
      (loadCSFFileByStoryId c6st "missing").2 = .error (.notFound "missing") :=
  c6_amended_errors c6st ⟨[]⟩ "missing" (fun p => .error (.loadFail p)) rfl rfl ⟨[], rfl⟩ rfl


section ExtractLemmas

variable {κ ν : Type} [DecidableEq κ]

theorem aget_mem {l : List (κ × ν)} {k : κ} {v : ν} (h : aget l k = some v) : (k, v) ∈ l := by
  induction l with
  | nil => simp [aget] at h
  | cons e t ih =>
    cases e with
    | mk a b =>
      by_cases hk : k = a
      · subst hk
        rw [aget_cons_self] at h
        simp [Option.some.inj h]
      · rw [aget_cons_ne hk] at h
        simp [ih h]

theorem mem_eraseKey_subset {l : List (κ × ν)} {k : κ} {e : κ × ν} :
    e ∈ eraseKey k l → e ∈ l := by
  induction l with
  | nil => intro h; simp [eraseKey] at h
  | cons a t ih =>
    cases a with
    | mk x y =>
      intro h
      by_cases hx : x = k
      · rw [show eraseKey k ((x, y) :: t) = eraseKey k t from by simp [eraseKey, hx]] at h
        exact List.mem_cons_of_mem _ (ih h)
      · rw [show eraseKey k ((x, y) :: t) = (x, y) :: eraseKey k t from by simp [eraseKey, hx]] at h
        rcases List.mem_cons.1 h with rfl | h
        · exact List.mem_cons_self _ _
        · exact List.mem_cons_of_mem _ (ih h)

theorem mem_oset {l : List (κ × ν)} {k : κ} {v : ν} {e : κ × ν}
    (h : e ∈ oset l k v) : e = (k, v) ∨ e ∈ l := by
  unfold oset at h
  by_cases hc : (aget l k).isSome
  · rw [if_pos hc] at h
    rcases List.mem_map.1 h with ⟨a, ha, hrep⟩
    by_cases hk : a.1 = k
    · rw [if_pos hk] at hrep
      exact Or.inl hrep.symm
    · rw [if_neg hk] at hrep
      exact Or.inr (hrep ▸ ha)
  · rw [if_neg hc] at h
    rcases List.mem_append.1 h with h | h
    · exact Or.inr h
    · exact Or.inl (by simpa using h)

theorem wf_memoCall (m : Memo PrepKey PreparedStory) (k : PrepKey) (hwf : WfStoryCache m) :
    WfStoryCache (memoCall STORY_CACHE_SIZE prepareStoryF m k).1 ∧
      (memoCall STORY_CACHE_SIZE prepareStoryF m k).2.fields = prepareStoryFields k := by
  cases hcase : aget m.cache k with
  | some v =>
    rw [memoCall_hit hcase]
    have hv := hwf _ (aget_mem hcase)
    exact ⟨fun e he => by
      rcases List.mem_cons.1 he with rfl | he
      · exact hv
      · exact hwf _ (mem_eraseKey_subset he), hv⟩
  | none =>
    rw [memoCall_miss hcase]
    refine ⟨fun e he => ?_, rfl⟩
    have he2 := List.take_subset _ _ he
    rcases List.mem_cons.1 he2 with rfl | he2
    · rfl
    · exact hwf _ he2

theorem storyFromCSFFile_wf_state (st : StoreState) (sid : StoryId) (csf : CSFFile)
    (hwf : WfStoryCache st.storyCache) :
    WfStoryCache (storyFromCSFFile st sid csf).1.storyCache := by
  unfold storyFromCSFFile
  cases st.projAnn with
  | none => exact hwf
  | some pa =>
    cases aget csf.stories sid with
    | none => exact hwf
    | some sa => exact (wf_memoCall st.storyCache (sa, csf.meta, pa) hwf).1

theorem storyFromCSFFile_ok_fields {st : StoreState} {sid : StoryId} {csf : CSFFile}
    {pa : ProjAnn} {sa : StoryAnn} {story : PreparedStory}
    (hwf : WfStoryCache st.storyCache) (hpa : st.projAnn = some pa)
    (hsa : aget csf.stories sid = some sa)
    (h : (storyFromCSFFile st sid csf).2 = .ok story) :
    story.fields = prepareStoryFields (sa, csf.meta, pa) := by
  rw [storyFromCSFFile_snd_ok hpa hsa] at h
  have := Except.ok.inj h
  rw [← this]
  exact (wf_memoCall st.storyCache (sa, csf.meta, pa) hwf).2

end ExtractLemmas

theorem goodVal_extractField {acc : List (String × JSVal)} {e : String × JSVal}
    (hacc : ∀ fv ∈ acc, GoodVal fv.2) : ∀ fv ∈ extractField acc e, GoodVal fv.2 := by
  unfold extractField
  by_cases hkey : e.1 = "moduleExport"
  · rw [if_pos hkey]
    exact hacc
  · rw [if_neg hkey]
    cases hv : e.2 with
    | fn n => exact hacc
    | arr l =>
      intro fv hfv
      rcases mem_oset hfv with rfl | hfv
      · exact ⟨fun n h => JSVal.noConfusion h,
          fun l2 h => by
            rw [JSVal.arr.injEq] at h
            rw [← h]
            exact List.sorted_insertionSort _ l⟩
      · exact hacc fv hfv
    | str v =>
      intro fv hfv
      rcases mem_oset hfv with rfl | hfv
      · exact ⟨fun n h => JSVal.noConfusion h, fun l2 h => JSVal.noConfusion h⟩
      · exact hacc fv hfv
    | num v =>
      intro fv hfv
      rcases mem_oset hfv with rfl | hfv
      · exact ⟨fun n h => JSVal.noConfusion h, fun l2 h => JSVal.noConfusion h⟩
      · exact hacc fv hfv
    | bool v =>
      intro fv hfv
      rcases mem_oset hfv with rfl | hfv
      · exact ⟨fun n h => JSVal.noConfusion h, fun l2 h => JSVal.noConfusion h⟩
      · exact hacc fv hfv
    | obj o =>
      intro fv hfv
      rcases mem_oset hfv with rfl | hfv
      · exact ⟨fun n h => JSVal.noConfusion h, fun l2 h => JSVal.noConfusion h⟩
      · exact hacc fv hfv

theorem goodVal_foldl : ∀ (fields acc : List (String × JSVal)),
    (∀ fv ∈ acc, GoodVal fv.2) → ∀ fv ∈ fields.foldl extractField acc, GoodVal fv.2
  | [], acc, hacc => hacc
  | e :: rest, acc, hacc => by
    rw [List.foldl_cons]
    exact goodVal_foldl rest (extractField acc e) (goodVal_extractField hacc)

theorem extractOne_shape (s : PreparedStory) : ∀ fv ∈ extractOne s, GoodVal fv.2 := by
  unfold extractOne
  refine goodVal_foldl s.fields _ ?_
  intro fv hfv
  rcases List.mem_singleton.1 hfv with rfl
  exact ⟨fun n h => JSVal.noConfusion h, fun l2 h => JSVal.noConfusion h⟩

theorem aget_extractOne_args {s : PreparedStory} {k : PrepKey}
    (hk : s.fields = prepareStoryFields k) :
    aget (extractOne s) "args" = some (.obj s.initialArgsObj) := by
  obtain ⟨sa, ca, pa⟩ := k
  simp [extractOne, hk, prepareStoryFields, extractField, oset, aget,
    PreparedStory.initialArgsObj]

theorem docsOnly_of_fields {s : PreparedStory} {sa : StoryAnn} {ca : CompAnn} {pa : ProjAnn}
    (hk : s.fields = prepareStoryFields (sa, ca, pa)) :
    s.docsOnly = true ↔
      aget (mergeParams (mergeParams pa.parameters ca.parameters) sa.parameters) "docsOnly"
        = some (.bool true) := by
  simp [PreparedStory.docsOnly, PreparedStory.params, hk, prepareStoryFields, aget]

theorem extractGo_spec (incl : Bool) (cached : List (String × CSFFile)) :
    ∀ (entries : List (StoryId × IndexEntry)) (st st1 : StoreState)
      (res : List (StoryId × List (String × JSVal))),
      WfStoryCache st.storyCache →
      extractGo incl cached st entries = (st1, .ok res) →
      WfStoryCache st1.storyCache ∧
        ∀ e ∈ res, (∃ s : PreparedStory, (∃ k : PrepKey, s.fields = prepareStoryFields k) ∧
            e.2 = extractOne s) ∧
          ∃ ie : IndexEntry, (e.1, ie) ∈ entries ∧ ie.type = .story
  | [], st, st1, res, hwf, h => by
    simp only [extractGo] at h
    have h1 := congrArg Prod.fst h
    have h2 := Except.ok.inj (congrArg Prod.snd h)
    simp only at h1 h2
    subst h1
    rw [← h2]
    exact ⟨hwf, by simp⟩
  | (sid0, ie0) :: rest, st, st1, res, hwf, h => by
    simp only [extractGo] at h
    by_cases hdocs : ie0.type = .docs
    · rw [if_pos hdocs] at h
      obtain ⟨hwf1, hres⟩ := extractGo_spec incl cached rest st st1 res hwf h
      refine ⟨hwf1, fun e he => ⟨(hres e he).1, ?_⟩⟩
      obtain ⟨ie, hie, htype⟩ := (hres e he).2
      exact ⟨ie, List.mem_cons_of_mem _ hie, htype⟩
    · rw [if_neg hdocs] at h
      cases hcsf : aget cached ie0.importPath with
      | none =>
        rw [hcsf] at h
        dsimp only at h
        exact absurd (congrArg Prod.snd h) (by simp)
      | some csf =>
        rw [hcsf] at h
        dsimp only at h
        cases hsf : storyFromCSFFile st sid0 csf with
        | mk stA r =>
          rw [hsf] at h
          cases r with
          | error e0 =>
            dsimp only at h
            exact absurd (congrArg Prod.snd h) (by simp)
          | ok story =>
            dsimp only at h
            have hwfA : WfStoryCache stA.storyCache := by
              have hh := storyFromCSFFile_wf_state st sid0 csf hwf
              rw [hsf] at hh
              exact hh
            have hfields : ∃ k, story.fields = prepareStoryFields k := by
              cases hpa : st.projAnn with
              | none =>
                rw [storyFromCSFFile, hpa] at hsf
                exact absurd (congrArg Prod.snd hsf) (by simp)
              | some pa =>
                cases hsa : aget csf.stories sid0 with
                | none =>
                  rw [storyFromCSFFile, hpa, hsa] at hsf
                  exact absurd (congrArg Prod.snd hsf) (by simp)
                | some sa =>
                  exact ⟨(sa, csf.meta, pa),
                    storyFromCSFFile_ok_fields hwf hpa hsa (by rw [hsf])⟩
            have hie0story : ie0.type = .story := by
              cases htype : ie0.type with
              | docs => exact absurd htype hdocs
              | story => rfl
            by_cases hskip : (!incl && story.docsOnly) = true
            · rw [if_pos hskip] at h
              obtain ⟨hwf1, hres⟩ := extractGo_spec incl cached rest stA st1 res hwfA h
              refine ⟨hwf1, fun e he => ⟨(hres e he).1, ?_⟩⟩
              obtain ⟨ie, hie, htype⟩ := (hres e he).2
              exact ⟨ie, List.mem_cons_of_mem _ hie, htype⟩
            · rw [if_neg hskip] at h
              cases hrest : extractGo incl cached stA rest with
              | mk st2 r2 =>
                rw [hrest] at h
                cases r2 with
                | error e0 =>
                  dsimp only at h
                  exact absurd (congrArg Prod.snd h) (by simp)
                | ok recs =>
                  dsimp only at h
                  have hst : st2 = st1 := congrArg Prod.fst h
                  have hres2 : (sid0, extractOne story) :: recs = res :=
                    Except.ok.inj (congrArg Prod.snd h)
                  obtain ⟨hwf1, hresrec⟩ := extractGo_spec incl cached rest stA st2 recs hwfA hrest
                  refine ⟨hst ▸ hwf1, ?_⟩
                  intro e he
                  rw [← hres2] at he
                  rcases List.mem_cons.1 he with rfl | he
                  · exact ⟨⟨story, hfields, rfl⟩, ⟨ie0, by simp, hie0story⟩⟩
                  · refine ⟨(hresrec e he).1, ?_⟩
                    obtain ⟨ie, hie, htype⟩ := (hresrec e he).2
                    exact ⟨ie, List.mem_cons_of_mem _ hie, htype⟩

theorem storyFromCSFFile_agree (s s' : StoreState) (sid : StoryId) (csf : CSFFile)
    (hp : s.projAnn = s'.projAnn) (hc : s.storyCache = s'.storyCache) :
    (storyFromCSFFile s sid csf).2 = (storyFromCSFFile s' sid csf).2 ∧
      (storyFromCSFFile s sid csf).1.projAnn = (storyFromCSFFile s' sid csf).1.projAnn ∧
      (storyFromCSFFile s sid csf).1.storyCache = (storyFromCSFFile s' sid csf).1.storyCache := by
  unfold storyFromCSFFile
  rw [hp, hc]
  cases s'.projAnn with
  | none => exact ⟨rfl, hp, hc⟩
  | some pa =>
    dsimp only
    cases aget csf.stories sid with
    | none => exact ⟨rfl, hp, hc⟩
    | some sa =>
      dsimp only
      exact ⟨rfl, rfl, rfl⟩

theorem extractGo_agree (incl : Bool) (cached : List (String × CSFFile)) :
    ∀ (entries : List (StoryId × IndexEntry)) (s s' : StoreState),
      s.projAnn = s'.projAnn → s.storyCache = s'.storyCache →
      (extractGo incl cached s entries).2 = (extractGo incl cached s' entries).2 ∧
        (extractGo incl cached s entries).1.projAnn = (extractGo incl cached s' entries).1.projAnn ∧
        (extractGo incl cached s entries).1.storyCache = (extractGo incl cached s' entries).1.storyCache
  | [], s, s', hp, hc => ⟨rfl, hp, hc⟩
  | (sid0, ie0) :: rest, s, s', hp, hc => by
    simp only [extractGo]
    by_cases hdocs : ie0.type = .docs
    · simp only [if_pos hdocs]
      exact extractGo_agree incl cached rest s s' hp hc
    · simp only [if_neg hdocs]
      cases aget cached ie0.importPath with
      | none => exact ⟨rfl, hp, hc⟩
      | some csf =>
        dsimp only
        have hsf := storyFromCSFFile_agree s s' sid0 csf hp hc
        cases h1 : storyFromCSFFile s sid0 csf with
        | mk a r =>
          cases h2 : storyFromCSFFile s' sid0 csf with
          | mk a' r' =>
            rw [h1, h2] at hsf
            dsimp only at hsf
            obtain ⟨hr, hpA, hcA⟩ := hsf
            subst hr
            cases r with
            | error e0 => exact ⟨rfl, hpA, hcA⟩
            | ok story =>
              dsimp only
              by_cases hskip : (!incl && story.docsOnly) = true
              · simp only [if_pos hskip]
                exact extractGo_agree incl cached rest a a' hpA hcA
              · simp only [if_neg hskip]
                have hIH := extractGo_agree incl cached rest a a' hpA hcA
                cases h3 : extractGo incl cached a rest with
                | mk b2 r2 =>
                  cases h4 : extractGo incl cached a' rest with
                  | mk b2' r2' =>
                    rw [h3, h4] at hIH
                    dsimp only at hIH
                    obtain ⟨hr2, hp2, hc2⟩ := hIH
                    subst hr2
                    cases r2 with
                    | error e0 => exact ⟨rfl, hp2, hc2⟩
                    | ok recs => exact ⟨rfl, hp2, hc2⟩

/-- C10: in every record produced by `extract`, the args field equals the
prepared story's initialArgs as computed at preparation time, and the
output of `extract` does not depend on the mutable argument store at all:
mutating argument state is never reflected in it. -/
theorem c10_extract_args_initial (st : StoreState) (b : Bool)
    (hwf : WfStoryCache st.storyCache) :
    (∀ st1 res, extract st b = (st1, .ok res) →
        ∀ e ∈ res, ∃ s : PreparedStory, (∃ k : PrepKey, s.fields = prepareStoryFields k) ∧
          e.2 = extractOne s ∧ aget e.2 "args" = some (.obj s.initialArgsObj)) ∧
      ∀ A : ArgsStore, (extract { st with argsStore := A } b).2 = (extract st b).2 := by
  constructor
  · intro st1 res h e he
    unfold extract at h
    cases hidx : st.storyIndex with
    | none =>
      rw [hidx] at h
      dsimp only at h
      exact absurd (congrArg Prod.snd h) (by simp)
    | some idx =>
      rw [hidx] at h
      dsimp only at h
      cases hcached : st.cachedCSFFiles with
      | none =>
        rw [hcached] at h
        dsimp only at h
        exact absurd (congrArg Prod.snd h) (by simp)
      | some cached =>
        rw [hcached] at h
        dsimp only at h
        obtain ⟨hwf1, hres⟩ := extractGo_spec b cached idx.entries st st1 res hwf h
        obtain ⟨⟨s, hk, he2⟩, _⟩ := hres e he
        exact ⟨s, hk, he2, by rw [he2]; exact aget_extractOne_args hk.choose_spec⟩
  · intro A
    unfold extract
    dsimp only
    cases st.storyIndex with
    | none => rfl
    | some idx =>
      dsimp only
      cases st.cachedCSFFiles with
      | none => rfl
      | some cached =>
        dsimp only
        exact (extractGo_agree b cached idx.entries
          { st with storyIndex := some idx, argsStore := A, cachedCSFFiles := some cached }
          st rfl rfl).1

/-- Witness for C10 at a concrete initialized store with an empty cache. -/
theorem c10_extract_args_initial_wit :
    WfStoryCache c6st.storyCache ∧
      ((∀ st1 res, extract c6st false = (st1, .ok res) →
          ∀ e ∈ res, ∃ s : PreparedStory, (∃ k : PrepKey, s.fields = prepareStoryFields k) ∧
            e.2 = extractOne s ∧ aget e.2 "args" = some (.obj s.initialArgsObj)) ∧
        ∀ A : ArgsStore, (extract { c6st with argsStore := A } false).2 = (extract c6st false).2) :=
  ⟨fun e he => by simp [c6st, StoryStore.new] at he,
    c10_extract_args_initial c6st false (fun e he => by simp [c6st, StoryStore.new] at he)⟩

theorem extract_eq {st : StoreState} {b : Bool} {idx : StoryIndex}
    {cached : List (String × CSFFile)} (hidx : st.storyIndex = some idx)
    (hcached : st.cachedCSFFiles = some cached) :
    extract st b = extractGo b cached st idx.entries := by
  unfold extract
  rw [hidx]
  dsimp only
  rw [hcached]

theorem extractGo_true_keys (cached : List (String × CSFFile)) :
    ∀ (entries : List (StoryId × IndexEntry)) (st st1 : StoreState)
      (res : List (StoryId × List (String × JSVal))),
      extractGo true cached st entries = (st1, .ok res) →
      res.map Prod.fst = (entries.filter (fun e => entryIsStory e.2)).map Prod.fst
  | [], st, st1, res, h => by
    simp only [extractGo] at h
    rw [← Except.ok.inj (congrArg Prod.snd h)]
    simp
  | (sid0, ie0) :: rest, st, st1, res, h => by
    simp only [extractGo] at h
    by_cases hdocs : ie0.type = .docs
    · rw [if_pos hdocs] at h
      have hstory : entryIsStory ie0 = false := by simp [entryIsStory, hdocs]
      rw [extractGo_true_keys cached rest st st1 res h]
      simp [List.filter_cons, hstory]
    · rw [if_neg hdocs] at h
      have hstory : entryIsStory ie0 = true := by
        cases htype : ie0.type with
        | docs => exact absurd htype hdocs
        | story => simp [entryIsStory, htype]
      cases hcsf : aget cached ie0.importPath with
      | none =>
        rw [hcsf] at h
        dsimp only at h
        exact absurd (congrArg Prod.snd h) (by simp)
      | some csf =>
        rw [hcsf] at h
        dsimp only at h
        cases hsf : storyFromCSFFile st sid0 csf with
        | mk stA r =>
          rw [hsf] at h
          cases r with
          | error e0 =>
            dsimp only at h
            exact absurd (congrArg Prod.snd h) (by simp)
          | ok story =>
            dsimp only at h
            rw [if_neg (by simp : ¬((!true && story.docsOnly) = true))] at h
            cases hrest : extractGo true cached stA rest with
            | mk st2 r2 =>
              rw [hrest] at h
              cases r2 with
              | error e0 =>
                dsimp only at h
                exact absurd (congrArg Prod.snd h) (by simp)
              | ok recs =>
                dsimp only at h
                rw [← Except.ok.inj (congrArg Prod.snd h)]
                rw [List.filter_cons]
                simp only [hstory, if_pos]
                rw [List.map_cons, List.map_cons]
                rw [extractGo_true_keys cached rest stA st2 recs hrest]

theorem extractGo_false_absent (cached : List (String × CSFFile)) :
    ∀ (entries : List (StoryId × IndexEntry)) (st st1 : StoreState)
      (res : List (StoryId × List (String × JSVal)))
      (sid : StoryId) (ie : IndexEntry) (csf : CSFFile) (sa : StoryAnn) (pa : ProjAnn),
      (entries.map Prod.fst).Nodup →
      WfStoryCache st.storyCache →
      st.projAnn = some pa →
      extractGo false cached st entries = (st1, .ok res) →
      (sid, ie) ∈ entries →
      ie.type = .story →
      aget cached ie.importPath = some csf →
      aget csf.stories sid = some sa →
      aget (mergeParams (mergeParams pa.parameters csf.meta.parameters) sa.parameters) "docsOnly"
        = some (.bool true) →
      sid ∉ res.map Prod.fst
  | [], _, _, _, _, _, _, _, _, _, _, _, _, hmem, _, _, _, _ => by simp at hmem
  | (sid0, ie0) :: rest, st, st1, res, sid, ie, csf, sa, pa,
      hnd, hwf, hpa, h, hmem, hie, hcsf, hsa, hdo => by
    simp only [extractGo] at h
    rw [List.map_cons, List.nodup_cons] at hnd
    obtain ⟨hnotin, hndrest⟩ := hnd
    rcases List.mem_cons.1 hmem with heq | hmem2
    · rw [Prod.mk.injEq] at heq
      obtain ⟨rfl, rfl⟩ := heq
      have hdocs : ¬(ie.type = .docs) := by
        rw [hie]
        intro hf
        exact EntryType.noConfusion hf
      rw [if_neg hdocs, hcsf] at h
      dsimp only at h
      cases hsf : storyFromCSFFile st sid csf with
      | mk stA r =>
        rw [hsf] at h
        cases r with
        | error e0 =>
          dsimp only at h
          exact absurd (congrArg Prod.snd h) (by simp)
        | ok story =>
          dsimp only at h
          have hfields : story.fields = prepareStoryFields (sa, csf.meta, pa) :=
            storyFromCSFFile_ok_fields hwf hpa hsa (by rw [hsf])
          have hdocsOnly : story.docsOnly = true := (docsOnly_of_fields hfields).2 hdo
          rw [if_pos (by simp [hdocsOnly] : (!false && story.docsOnly) = true)] at h
          have hwfA : WfStoryCache stA.storyCache := by
            have hh := storyFromCSFFile_wf_state st sid csf hwf
            rw [hsf] at hh
            exact hh
          obtain ⟨_, hres⟩ := extractGo_spec false cached rest stA st1 res hwfA h
          intro hcon
          rcases List.mem_map.1 hcon with ⟨e, he, hfst⟩
          obtain ⟨ie2, hie2, _⟩ := (hres e he).2
          have hkey := List.mem_map_of_mem Prod.fst hie2
          exact hnotin (hfst ▸ hkey)
    · by_cases hdocs0 : ie0.type = .docs
      · rw [if_pos hdocs0] at h
        exact extractGo_false_absent cached rest st st1 res sid ie csf sa pa
          hndrest hwf hpa h hmem2 hie hcsf hsa hdo
      · rw [if_neg hdocs0] at h
        cases hcsf0 : aget cached ie0.importPath with
        | none =>
          rw [hcsf0] at h
          dsimp only at h
          exact absurd (congrArg Prod.snd h) (by simp)
        | some csf0 =>
          rw [hcsf0] at h
          dsimp only at h
          cases hsf : storyFromCSFFile st sid0 csf0 with
          | mk stA r =>
            rw [hsf] at h
            cases r with
            | error e0 =>
              dsimp only at h
              exact absurd (congrArg Prod.snd h) (by simp)
            | ok story0 =>
              dsimp only at h
              have hwfA : WfStoryCache stA.storyCache := by
                have hh := storyFromCSFFile_wf_state st sid0 csf0 hwf
                rw [hsf] at hh
                exact hh
              have hpaA : stA.projAnn = some pa := by
                have hh := storyFromCSFFile_projAnn st sid0 csf0
                rw [hsf] at hh
                exact hh.trans hpa
              by_cases hskip : (!false && story0.docsOnly) = true
              · rw [if_pos hskip] at h
                exact extractGo_false_absent cached rest stA st1 res sid ie csf sa pa
                  hndrest hwfA hpaA h hmem2 hie hcsf hsa hdo
              · rw [if_neg hskip] at h
                cases hrest : extractGo false cached stA rest with
                | mk st2 r2 =>
                  rw [hrest] at h
                  cases r2 with
                  | error e0 =>
                    dsimp only at h
                    exact absurd (congrArg Prod.snd h) (by simp)
                  | ok recs =>
                    dsimp only at h
                    have hres2 : (sid0, extractOne story0) :: recs = res :=
                      Except.ok.inj (congrArg Prod.snd h)
                    have hIH := extractGo_false_absent cached rest stA st2 recs sid ie csf sa pa
                      hndrest hwfA hpaA hrest hmem2 hie hcsf hsa hdo
                    intro hcon
                    rw [← hres2, List.map_cons] at hcon
                    rcases List.mem_cons.1 hcon with heq0 | hcon2
                    · dsimp only at heq0
                      have hkey := List.mem_map_of_mem Prod.fst hmem2
                      exact hnotin (heq0 ▸ hkey)
                    · exact hIH hcon2

/-- C8: every record `extract` produces corresponds to a story-kind index
entry (docs entries are always omitted), drops every function-valued
field, sorts every array-valued field; and a story whose merged
parameters flag it docs-only is present in the snapshot that includes
docs-only stories and absent from the one that does not. -/
theorem c8_extract_shape (st : StoreState) (idx : StoryIndex) (cached : List (String × CSFFile))
    (hidx : st.storyIndex = some idx) (hcached : st.cachedCSFFiles = some cached)
    (hwf : WfStoryCache st.storyCache) :
    (∀ (b : Bool) (st1 : StoreState) (res : List (StoryId × List (String × JSVal))),
        extract st b = (st1, .ok res) →
        ∀ e ∈ res, (∀ fv ∈ e.2, (∀ n, fv.2 ≠ .fn n) ∧
            (∀ l, fv.2 = .arr l → l.Sorted (fun a b => a ≤ b))) ∧
          ∃ ie : IndexEntry, (e.1, ie) ∈ idx.entries ∧ ie.type = .story) ∧
      ∀ (sid : StoryId) (ie : IndexEntry) (csf : CSFFile) (sa : StoryAnn) (pa : ProjAnn)
        (st1 st1' : StoreState) (res res' : List (StoryId × List (String × JSVal))),
        (idx.entries.map Prod.fst).Nodup →
        st.projAnn = some pa →
        (sid, ie) ∈ idx.entries → ie.type = .story →
        aget cached ie.importPath = some csf →
        aget csf.stories sid = some sa →
        aget (mergeParams (mergeParams pa.parameters csf.meta.parameters) sa.parameters) "docsOnly"
          = some (.bool true) →
        extract st true = (st1, .ok res) →
        extract st false = (st1', .ok res') →
        sid ∈ res.map Prod.fst ∧ sid ∉ res'.map Prod.fst := by
  constructor
  · intro b st1 res h e he
    rw [extract_eq hidx hcached] at h
    obtain ⟨_, hres⟩ := extractGo_spec b cached idx.entries st st1 res hwf h
    obtain ⟨⟨s, _, he2⟩, hentry⟩ := hres e he
    refine ⟨?_, hentry⟩
    rw [he2]
    exact extractOne_shape s
  · intro sid ie csf sa pa st1 st1' res res' hnd hpa hmem hie hcsf hsa hdo htrue hfalse
    rw [extract_eq hidx hcached] at htrue hfalse
    constructor
    · rw [extractGo_true_keys cached idx.entries st st1 res htrue]
      refine List.mem_map.2 ⟨(sid, ie), ?_, rfl⟩
      rw [List.mem_filter]
      refine ⟨hmem, ?_⟩
      simp [entryIsStory, hie]
    · exact extractGo_false_absent cached idx.entries st st1' res' sid ie csf sa pa
        hnd hwf hpa hfalse hmem hie hcsf hsa hdo

/-- Witness for C8 at the concrete two-story store: the docs-only story
appears exactly in the snapshot that includes docs-only stories. -/
theorem c8_extract_shape_wit :
    (c8st.storyIndex = some c8idx ∧ c8st.cachedCSFFiles = some [("p", c8csf)] ∧
        WfStoryCache c8st.storyCache ∧
        ((extract c8st true).2.toOption.getD []).map Prod.fst = ["x--d", "x--n"] ∧
        ((extract c8st false).2.toOption.getD []).map Prod.fst = ["x--n"]) ∧
      ((∀ (b : Bool) (st1 : StoreState) (res : List (StoryId × List (String × JSVal))),
          extract c8st b = (st1, .ok res) →
          ∀ e ∈ res, (∀ fv ∈ e.2, (∀ n, fv.2 ≠ .fn n) ∧
              (∀ l, fv.2 = .arr l → l.Sorted (fun a b => a ≤ b))) ∧
            ∃ ie : IndexEntry, (e.1, ie) ∈ c8idx.entries ∧ ie.type = .story) ∧
        ∀ (sid : StoryId) (ie : IndexEntry) (csf : CSFFile) (sa : StoryAnn) (pa : ProjAnn)
          (st1 st1' : StoreState) (res res' : List (StoryId × List (String × JSVal))),
          (c8idx.entries.map Prod.fst).Nodup →
          c8st.projAnn = some pa →
          (sid, ie) ∈ c8idx.entries → ie.type = .story →
          aget [("p", c8csf)] ie.importPath = some csf →
          aget csf.stories sid = some sa →
          aget (mergeParams (mergeParams pa.parameters csf.meta.parameters) sa.parameters) "docsOnly"
            = some (.bool true) →
          extract c8st true = (st1, .ok res) →
          extract c8st false = (st1', .ok res') →
          sid ∈ res.map Prod.fst ∧ sid ∉ res'.map Prod.fst) :=
  ⟨⟨rfl, rfl, fun e he => by simp [c8st, StoryStore.new] at he, by decide, by decide⟩,
    c8_extract_shape c8st c8idx [("p", c8csf)] rfl rfl
      (fun e he => by simp [c8st, StoryStore.new] at he)⟩

section BatchLemmas

theorem loadCSF_ok {st : StoreState} {id : StoryId} {idx : StoryIndex} {f : ImportFn}
    {e : IndexEntry} {me : ModuleExports}
    (hidx : st.storyIndex = some idx) (himp : st.impFn = some f)
    (hentry : storyIdToEntry idx id = .ok e) (hf : f e.importPath = .ok me) :
    loadCSFFileByStoryId st id
      = ({ st with
            loadLog := st.loadLog ++ [e.importPath]
            csfCache := (memoCall CSF_CACHE_SIZE processCSFFileF st.csfCache
              (me, e.importPath, e.title)).1 },
         .ok (memoCall CSF_CACHE_SIZE processCSFFileF st.csfCache (me, e.importPath, e.title)).2) := by
  unfold loadCSFFileByStoryId
  rw [hidx, himp]
  dsimp only
  rw [hentry]
  dsimp only
  rw [hf]

theorem loadCSF_err {st : StoreState} {id : StoryId} {idx : StoryIndex} {f : ImportFn}
    {e : IndexEntry} {err : Err}
    (hidx : st.storyIndex = some idx) (himp : st.impFn = some f)
    (hentry : storyIdToEntry idx id = .ok e) (hf : f e.importPath = .error err) :
    loadCSFFileByStoryId st id
      = ({ st with loadLog := st.loadLog ++ [e.importPath] }, .error err) := by
  unfold loadCSFFileByStoryId
  rw [hidx, himp]
  dsimp only
  rw [hentry]
  dsimp only
  rw [hf]

theorem loadCSF_entry_err {st : StoreState} {id : StoryId} {idx : StoryIndex} {f : ImportFn}
    {err : Err}
    (hidx : st.storyIndex = some idx) (himp : st.impFn = some f)
    (hentry : storyIdToEntry idx id = .error err) :
    loadCSFFileByStoryId st id = (st, .error err) := by
  unfold loadCSFFileByStoryId
  rw [hidx, himp]
  dsimp only
  rw [hentry]

theorem runBatch_nil {st : StoreState} : runBatch st [] = (st, []) := rfl

theorem runBatch_acc : ∀ (l : List (String × StoryId)) (st : StoreState)
    (acc : List (String × Except Err CSFFile)),
    l.foldl (fun acc e =>
        ((loadCSFFileByStoryId acc.1 e.2).1, acc.2 ++ [(e.1, (loadCSFFileByStoryId acc.1 e.2).2)]))
      (st, acc)
      = ((runBatch st l).1, acc ++ (runBatch st l).2)
  | [], st, acc => by simp [runBatch]
  | x :: l, st, acc => by
    rw [List.foldl_cons]
    dsimp only
    rw [runBatch_acc l (loadCSFFileByStoryId st x.2).1 (acc ++ [(x.1, (loadCSFFileByStoryId st x.2).2)])]
    have hr : runBatch st (x :: l)
        = ((runBatch (loadCSFFileByStoryId st x.2).1 l).1,
           (x.1, (loadCSFFileByStoryId st x.2).2)
             :: (runBatch (loadCSFFileByStoryId st x.2).1 l).2) := by
      unfold runBatch
      rw [List.foldl_cons]
      dsimp only
      rw [runBatch_acc l (loadCSFFileByStoryId st x.2).1 ([] ++ [(x.1, (loadCSFFileByStoryId st x.2).2)])]
      simp [runBatch]
    rw [hr]
    simp

theorem runBatch_cons {st : StoreState} {x : String × StoryId} {l : List (String × StoryId)} :
    runBatch st (x :: l)
      = ((runBatch (loadCSFFileByStoryId st x.2).1 l).1,
         (x.1, (loadCSFFileByStoryId st x.2).2)
           :: (runBatch (loadCSFFileByStoryId st x.2).1 l).2) := by
  unfold runBatch
  rw [List.foldl_cons]
  dsimp only
  rw [runBatch_acc l (loadCSFFileByStoryId st x.2).1 ([] ++ [(x.1, (loadCSFFileByStoryId st x.2).2)])]
  simp [runBatch]

theorem memoCall_front {κ ν : Type} [DecidableEq κ] {limit : Nat} (hlim : 1 ≤ limit)
    (f : κ → Nat → ν) (m : Memo κ ν) (k : κ) :
    ∃ l, (memoCall limit f m k).1.cache = (k, (memoCall limit f m k).2) :: l := by
  cases hcase : aget m.cache k with
  | some v =>
    rw [memoCall_hit hcase]
    exact ⟨eraseKey k m.cache, rfl⟩
  | none =>
    rw [memoCall_miss hcase]
    cases limit with
    | zero => omega
    | succ n => exact ⟨m.cache.take n, by rw [List.take_succ_cons]⟩

theorem aget_second_call {κ ν : Type} [DecidableEq κ] {limit : Nat} (hlim : 2 ≤ limit)
    (f : κ → Nat → ν) {m : Memo κ ν} {k : κ} {v : ν} {l : List (κ × ν)} {k' : κ}
    (hfront : m.cache = (k, v) :: l) (hne : k ≠ k') :
    aget (memoCall limit f m k').1.cache k = some v := by
  cases hcase : aget m.cache k' with
  | some v' =>
    rw [memoCall_hit hcase]
    rw [aget_cons_ne hne, hfront]
    rw [show eraseKey k' ((k, v) :: l) = (k, v) :: eraseKey k' l from by
      simp only [eraseKey]
      rw [if_neg hne]]
    exact aget_cons_self
  | none =>
    rw [memoCall_miss hcase]
    obtain ⟨n, rfl⟩ : ∃ n, limit = n + 2 := ⟨limit - 2, by omega⟩
    rw [hfront, List.take_succ_cons, List.take_succ_cons]
    rw [aget_cons_ne hne]
    exact aget_cons_self

theorem memoCall_keys_subset {κ ν : Type} [DecidableEq κ] {limit : Nat} {f : κ → Nat → ν}
    {m : Memo κ ν} {k : κ} :
    ∀ x ∈ (memoCall limit f m k).1.cache.map Prod.fst, x = k ∨ x ∈ m.cache.map Prod.fst := by
  intro x hx
  cases hcase : aget m.cache k with
  | some v =>
    rw [memoCall_hit hcase] at hx
    rcases List.mem_map.1 hx with ⟨e, he, rfl⟩
    rcases List.mem_cons.1 he with rfl | he
    · exact Or.inl rfl
    · exact Or.inr (List.mem_map_of_mem Prod.fst (mem_eraseKey_subset he))
  | none =>
    rw [memoCall_miss hcase] at hx
    rcases List.mem_map.1 hx with ⟨e, he, rfl⟩
    rcases List.mem_cons.1 (List.take_subset _ _ he) with rfl | he
    · exact Or.inl rfl
    · exact Or.inr (List.mem_map_of_mem Prod.fst he)

end BatchLemmas

/-- C2: in a batch, a failing module load does not prevent the sibling
loads of the same batch from being issued, processed and cached — each
item settles independently and the failed load is not cached — while the
aggregate batch result and a direct single-entry load reject with the
loader's error. -/
theorem c2_batch_failure_isolation
    (st : StoreState) (f : ImportFn) (idx : StoryIndex)
    (ia ib ic : StoryId) (ea ec : ModuleExports) (eA eB eC : IndexEntry) (err : Err)
    (hidx : st.storyIndex = some idx) (himp : st.impFn = some f)
    (hentries : idx.entries = [(ia, eA), (ib, eB), (ic, eC)])
    (hba : ib ≠ ia) (hca : ic ≠ ia) (hcb : ic ≠ ib)
    (hfa : f eA.importPath = .ok ea) (hfb : f eB.importPath = .error err)
    (hfc : f eC.importPath = .ok ec)
    (hkAC : ((ea, eA.importPath, eA.title) : CSFKey) ≠ (ec, eC.importPath, eC.title))
    (hclean : ∀ k ∈ st.csfCache.cache.map Prod.fst, k.2.1 ≠ eB.importPath)
    (hpa : eA.importPath ≠ eB.importPath) (hpc : eC.importPath ≠ eB.importPath) :
    (loadCSFFileByStoryId st ib).2 = .error err ∧
      (loadCSFFileByStoryId st ib).1.csfCache = st.csfCache ∧
      (loadAllCSFFiles st 20).1.loadLog
        = st.loadLog ++ [eA.importPath, eB.importPath, eC.importPath] ∧
      (loadAllCSFFiles st 20).2 = .error err ∧
      aget (loadAllCSFFiles st 20).1.csfCache.cache (ea, eA.importPath, eA.title)
        = some (memoCall CSF_CACHE_SIZE processCSFFileF st.csfCache (ea, eA.importPath, eA.title)).2 ∧
      (aget (loadAllCSFFiles st 20).1.csfCache.cache (ec, eC.importPath, eC.title)).isSome ∧
      ∀ k ∈ (loadAllCSFFiles st 20).1.csfCache.cache.map Prod.fst, k.2.1 ≠ eB.importPath := by
  have hEA : storyIdToEntry idx ia = .ok eA := by simp [storyIdToEntry, hentries, aget]
  have hEB : storyIdToEntry idx ib = .ok eB := by simp [storyIdToEntry, hentries, aget, hba]
  have hEC : storyIdToEntry idx ic = .ok eC := by simp [storyIdToEntry, hentries, aget, hca, hcb]
  have hl1 : loadCSFFileByStoryId st ia
      = ({ st with
            loadLog := st.loadLog ++ [eA.importPath]
            csfCache := (memoCall CSF_CACHE_SIZE processCSFFileF st.csfCache
              (ea, eA.importPath, eA.title)).1 },
         .ok (memoCall CSF_CACHE_SIZE processCSFFileF st.csfCache (ea, eA.importPath, eA.title)).2) :=
    loadCSF_ok hidx himp hEA hfa
  have hl2 : loadCSFFileByStoryId
      ({ st with
          loadLog := st.loadLog ++ [eA.importPath]
          csfCache := (memoCall CSF_CACHE_SIZE processCSFFileF st.csfCache
            (ea, eA.importPath, eA.title)).1 }) ib
      = ({ st with
            loadLog := (st.loadLog ++ [eA.importPath]) ++ [eB.importPath]
            csfCache := (memoCall CSF_CACHE_SIZE processCSFFileF st.csfCache
              (ea, eA.importPath, eA.title)).1 },
         .error err) :=
    loadCSF_err hidx himp hEB hfb
  have hl3 : loadCSFFileByStoryId
      ({ st with
          loadLog := (st.loadLog ++ [eA.importPath]) ++ [eB.importPath]
          csfCache := (memoCall CSF_CACHE_SIZE processCSFFileF st.csfCache
            (ea, eA.importPath, eA.title)).1 }) ic
      = ({ st with
            loadLog := ((st.loadLog ++ [eA.importPath]) ++ [eB.importPath]) ++ [eC.importPath]
            csfCache := (memoCall CSF_CACHE_SIZE processCSFFileF
              (memoCall CSF_CACHE_SIZE processCSFFileF st.csfCache (ea, eA.importPath, eA.title)).1
              (ec, eC.importPath, eC.title)).1 },
         .ok (memoCall CSF_CACHE_SIZE processCSFFileF
              (memoCall CSF_CACHE_SIZE processCSFFileF st.csfCache (ea, eA.importPath, eA.title)).1
              (ec, eC.importPath, eC.title)).2) :=
    loadCSF_ok hidx himp hEC hfc
  have hbatch : runBatch st [(eA.importPath, ia), (eB.importPath, ib), (eC.importPath, ic)]
      = ({ st with
            loadLog := ((st.loadLog ++ [eA.importPath]) ++ [eB.importPath]) ++ [eC.importPath]
            csfCache := (memoCall CSF_CACHE_SIZE processCSFFileF
              (memoCall CSF_CACHE_SIZE processCSFFileF st.csfCache (ea, eA.importPath, eA.title)).1
              (ec, eC.importPath, eC.title)).1 },
         [(eA.importPath,
            .ok (memoCall CSF_CACHE_SIZE processCSFFileF st.csfCache (ea, eA.importPath, eA.title)).2),
          (eB.importPath, .error err),
          (eC.importPath,
            .ok (memoCall CSF_CACHE_SIZE processCSFFileF
              (memoCall CSF_CACHE_SIZE processCSFFileF st.csfCache (ea, eA.importPath, eA.title)).1
              (ec, eC.importPath, eC.title)).2)]) := by
    rw [runBatch_cons]
    dsimp only
    rw [hl1]
    dsimp only
    rw [runBatch_cons]
    dsimp only
    rw [hl2]
    dsimp only
    rw [runBatch_cons]
    dsimp only
    rw [hl3]
    rw [runBatch_nil]
  have hall : loadAllCSFFiles st 20
      = ({ st with
            loadLog := ((st.loadLog ++ [eA.importPath]) ++ [eB.importPath]) ++ [eC.importPath]
            csfCache := (memoCall CSF_CACHE_SIZE processCSFFileF
              (memoCall CSF_CACHE_SIZE processCSFFileF st.csfCache (ea, eA.importPath, eA.title)).1
              (ec, eC.importPath, eC.title)).1 },
         .error err) := by
    unfold loadAllCSFFiles
    rw [hidx]
    dsimp only
    rw [hentries]
    simp only [List.map_cons, List.map_nil, List.length_cons, List.length_nil]
    simp only [loadInBatchesGo]
    rw [List.take_of_length_le (by simp)]
    rw [hbatch]
    dsimp only
    simp only [seqResults, Except.map]
    rw [hidx]
  refine ⟨?_, ?_, ?_, ?_, ?_, ?_, ?_⟩
  · rw [loadCSF_err hidx himp hEB hfb]
  · rw [loadCSF_err hidx himp hEB hfb]
  · rw [hall]
    simp
  · rw [hall]
  · rw [hall]
    obtain ⟨l0, hl0⟩ := memoCall_front
      (show (1 : Nat) ≤ CSF_CACHE_SIZE by norm_num [CSF_CACHE_SIZE])
      processCSFFileF st.csfCache (ea, eA.importPath, eA.title)
    exact aget_second_call (by norm_num [CSF_CACHE_SIZE]) processCSFFileF hl0 hkAC
  · rw [hall]
    rw [aget_memoCall_self (by norm_num [CSF_CACHE_SIZE]) processCSFFileF _ _]
    rfl
  · rw [hall]
    intro k hk
    rcases memoCall_keys_subset _ hk with rfl | hk2
    · exact hpc
    · rcases memoCall_keys_subset _ hk2 with rfl | hk3
      · exact hpa
      · exact hclean k hk3

/-- Witness for C2 at a concrete three-entry batch whose middle load
fails. -/
theorem c2_batch_failure_isolation_wit :
    (c2st.storyIndex = some c2idx ∧ c2st.impFn = some c2f ∧
        c2idx.entries = [("a", c2eA), ("b", c2eB), ("c", c2eC)] ∧
        ("b" : StoryId) ≠ "a" ∧ ("c" : StoryId) ≠ "a" ∧ ("c" : StoryId) ≠ "b" ∧
        c2f c2eA.importPath = .ok c2ea ∧
        c2f c2eB.importPath = .error (.loadFail "qb") ∧
        c2f c2eC.importPath = .ok c2ec ∧
        ((c2ea, c2eA.importPath, c2eA.title) : CSFKey) ≠ (c2ec, c2eC.importPath, c2eC.title) ∧
        (∀ k ∈ c2st.csfCache.cache.map Prod.fst, k.2.1 ≠ c2eB.importPath) ∧
        c2eA.importPath ≠ c2eB.importPath ∧ c2eC.importPath ≠ c2eB.importPath) ∧
      ((loadCSFFileByStoryId c2st "b").2 = .error (.loadFail "qb") ∧
        (loadCSFFileByStoryId c2st "b").1.csfCache = c2st.csfCache ∧
        (loadAllCSFFiles c2st 20).1.loadLog
          = c2st.loadLog ++ [c2eA.importPath, c2eB.importPath, c2eC.importPath] ∧
        (loadAllCSFFiles c2st 20).2 = .error (.loadFail "qb") ∧
        aget (loadAllCSFFiles c2st 20).1.csfCache.cache (c2ea, c2eA.importPath, c2eA.title)
          = some (memoCall CSF_CACHE_SIZE processCSFFileF c2st.csfCache
              (c2ea, c2eA.importPath, c2eA.title)).2 ∧
        (aget (loadAllCSFFiles c2st 20).1.csfCache.cache (c2ec, c2eC.importPath, c2eC.title)).isSome ∧
        ∀ k ∈ (loadAllCSFFiles c2st 20).1.csfCache.cache.map Prod.fst, k.2.1 ≠ c2eB.importPath) :=
  ⟨⟨rfl, rfl, rfl, by decide, by decide, by decide, rfl, rfl, rfl, by decide,
      by simp [c2st, StoryStore.new], by decide, by decide⟩,
    c2_batch_failure_isolation c2st c2f c2idx "a" "b" "c" c2ea c2ec c2eA c2eB c2eC
      (.loadFail "qb") rfl rfl rfl (by decide) (by decide) (by decide) rfl rfl
      rfl (by decide) (by simp [c2st, StoryStore.new]) (by decide) (by decide)⟩

section ChunkLemmas

theorem chunks_join {α : Type} {bs : Nat} (hbs : 1 ≤ bs) :
    ∀ (fuel : Nat) (l : List α), l.length ≤ fuel → (chunks bs fuel l).flatten = l
  | 0, l, h => by
    rw [List.length_eq_zero.1 (Nat.le_zero.1 h)]
    rfl
  | fuel + 1, [], _ => rfl
  | fuel + 1, x :: xs, h => by
    simp only [chunks, List.flatten]
    rw [chunks_join hbs fuel ((x :: xs).drop bs) (by
      simp only [List.length_drop, List.length_cons]
      simp only [List.length_cons] at h
      omega)]
    exact List.take_append_drop bs (x :: xs)

theorem chunks_shape {α : Type} {bs : Nat} (hbs : 1 ≤ bs) :
    ∀ (fuel : Nat) (l : List α), ∀ c ∈ chunks bs fuel l, c.length ≤ bs ∧ c ≠ []
  | 0, l, c, hc => by
    cases l with
    | nil => simp [chunks] at hc
    | cons x xs => simp [chunks] at hc
  | fuel + 1, [], c, hc => by simp [chunks] at hc
  | fuel + 1, x :: xs, c, hc => by
    simp only [chunks, List.mem_cons] at hc
    rcases hc with rfl | hc
    · constructor
      · rw [List.length_take]
        omega
      · cases hb : bs with
        | zero => omega
        | succ n => simp [List.take_succ_cons]
    · exact chunks_shape hbs fuel ((x :: xs).drop bs) c hc

theorem loadInBatchesGo_eq_processBatches {bs : Nat} (hbs : 1 ≤ bs) :
    ∀ (fuel : Nat) (l : List (String × StoryId)) (st : StoreState), l.length ≤ fuel →
      loadInBatchesGo bs fuel st l = processBatches st (chunks bs fuel l)
  | 0, l, st, h => by
    rw [List.length_eq_zero.1 (Nat.le_zero.1 h)]
    rfl
  | fuel + 1, [], st, _ => rfl
  | fuel + 1, x :: xs, st, h => by
    simp only [loadInBatchesGo, chunks, processBatches]
    rw [loadInBatchesGo_eq_processBatches hbs fuel ((x :: xs).drop bs)
      (runBatch st ((x :: xs).take bs)).1 (by
        simp only [List.length_drop, List.length_cons]
        simp only [List.length_cons] at h
        omega)]

theorem seqResults_ok_keys : ∀ (rs : List (String × Except Err CSFFile))
    (l : List (String × CSFFile)), seqResults rs = .ok l → l.map Prod.fst = rs.map Prod.fst
  | [], l, h => by
    rw [← Except.ok.inj h]
    rfl
  | (p, .error e) :: rest, l, h => by simp [seqResults] at h
  | (p, .ok c) :: rest, l, h => by
    simp only [seqResults] at h
    cases hrest : seqResults rest with
    | error e => rw [hrest] at h; simp [Except.map] at h
    | ok lr =>
      rw [hrest] at h
      simp only [Except.map] at h
      rw [← Except.ok.inj h]
      simp only [List.map_cons]
      rw [seqResults_ok_keys rest lr hrest]

theorem runBatch_keys : ∀ (b : List (String × StoryId)) (st : StoreState),
    (runBatch st b).2.map Prod.fst = b.map Prod.fst
  | [], st => rfl
  | x :: l, st => by
    rw [runBatch_cons]
    simp only [List.map_cons]
    rw [runBatch_keys l (loadCSFFileByStoryId st x.2).1]

theorem loadInBatchesGo_ok_keys {bs : Nat} (hbs : 1 ≤ bs) :
    ∀ (fuel : Nat) (l : List (String × StoryId)) (st st' : StoreState)
      (res : List (String × CSFFile)), l.length ≤ fuel →
      loadInBatchesGo bs fuel st l = (st', .ok res) →
      res.map Prod.fst = l.map Prod.fst
  | 0, l, st, st', res, hlen, h => by
    rw [List.length_eq_zero.1 (Nat.le_zero.1 hlen)] at h ⊢
    simp only [loadInBatchesGo] at h
    rw [← Except.ok.inj (congrArg Prod.snd h)]
    rfl
  | fuel + 1, [], st, st', res, hlen, h => by
    simp only [loadInBatchesGo] at h
    rw [← Except.ok.inj (congrArg Prod.snd h)]
    rfl
  | fuel + 1, x :: xs, st, st', res, hlen, h => by
    simp only [loadInBatchesGo] at h
    cases hseq : seqResults (runBatch st ((x :: xs).take bs)).2 with
    | error e =>
      rw [hseq] at h
      dsimp only at h
      exact absurd (congrArg Prod.snd h) (by simp)
    | ok firstResults =>
      rw [hseq] at h
      dsimp only at h
      cases hrec : loadInBatchesGo bs fuel (runBatch st ((x :: xs).take bs)).1 ((x :: xs).drop bs) with
      | mk st2 r2 =>
        rw [hrec] at h
        cases r2 with
        | error e =>
          dsimp only at h
          exact absurd (congrArg Prod.snd h) (by simp)
        | ok more =>
          dsimp only at h
          rw [← Except.ok.inj (congrArg Prod.snd h)]
          rw [List.map_append]
          rw [seqResults_ok_keys _ _ hseq, runBatch_keys]
          rw [loadInBatchesGo_ok_keys hbs fuel ((x :: xs).drop bs) _ st2 more (by
            simp only [List.length_drop, List.length_cons]
            simp only [List.length_cons] at hlen
            omega) hrec]
          rw [← List.map_append, List.take_append_drop]

theorem oset_keys_of_not_mem {κ ν : Type} [DecidableEq κ] {l : List (κ × ν)} {k : κ} {v : ν}
    (h : k ∉ l.map Prod.fst) : oset l k v = l ++ [(k, v)] := by
  unfold oset
  rw [aget_eq_none h]
  rfl

theorem foldl_oset_keys : ∀ (l acc : List (String × CSFFile)),
    (∀ k ∈ l.map Prod.fst, k ∉ acc.map Prod.fst) → (l.map Prod.fst).Nodup →
    (l.foldl (fun a e => oset a e.1 e.2) acc).map Prod.fst = acc.map Prod.fst ++ l.map Prod.fst
  | [], acc, _, _ => by simp
  | x :: l, acc, hdisj, hnd => by
    rw [List.foldl_cons]
    rw [oset_keys_of_not_mem (hdisj x.1 (by simp))]
    rw [List.map_cons, List.nodup_cons] at hnd
    rw [foldl_oset_keys l (acc ++ [(x.1, x.2)]) (by
      intro k hk
      rw [List.map_append]
      simp only [List.mem_append]
      push_neg
      constructor
      · exact hdisj k (by simp [hk])
      · intro hx
        simp only [List.map_cons, List.map_nil, List.mem_singleton] at hx
        rw [hx] at hk
        exact hnd.1 hk) hnd.2]
    simp

theorem toMapping_keys_nodup {l : List (String × CSFFile)}
    (hnd : (l.map Prod.fst).Nodup) : (toMapping l).map Prod.fst = l.map Prod.fst := by
  unfold toMapping
  rw [foldl_oset_keys l [] (by simp) hnd]
  rfl

end ChunkLemmas

/-- C4: the loader partitions the import paths into batches of the batch
size (default EXTRACT_BATCH_SIZE = 20), processes batches strictly in
sequence (each batch settles wholly before the next begins), every batch
is nonempty with at most batch-size loads, and the keys of the returned
mapping appear in the insertion order of the import paths as encountered
in the index, not in completion order. -/
theorem c4_batching_order :
    EXTRACT_BATCH_SIZE = 20 ∧
      (∀ bs : Nat, 1 ≤ bs → ∀ (l : List (String × StoryId)) (st : StoreState),
        loadInBatchesGo bs l.length st l = processBatches st (chunks bs l.length l)) ∧
      (∀ bs : Nat, 1 ≤ bs → ∀ l : List (String × StoryId),
        (chunks bs l.length l).flatten = l ∧
          ∀ c ∈ chunks bs l.length l, c.length ≤ bs ∧ c ≠ []) ∧
      ∀ bs : Nat, 1 ≤ bs → ∀ (st st' : StoreState) (idx : StoryIndex)
        (m : List (String × CSFFile)),
        st.storyIndex = some idx →
        (idx.entries.map (fun e => e.2.importPath)).Nodup →
        loadAllCSFFiles st bs = (st', .ok m) →
        m.map Prod.fst = idx.entries.map (fun e => e.2.importPath) := by
  refine ⟨rfl, ?_, ?_, ?_⟩
  · intro bs hbs l st
    exact loadInBatchesGo_eq_processBatches hbs l.length l st (Nat.le_refl _)
  · intro bs hbs l
    exact ⟨chunks_join hbs l.length l (Nat.le_refl _), chunks_shape hbs l.length l⟩
  · intro bs hbs st st' idx m hidx hnd h
    unfold loadAllCSFFiles at h
    rw [hidx] at h
    dsimp only at h
    cases hg : loadInBatchesGo bs (idx.entries.map (fun e => (e.2.importPath, e.1))).length st
        (idx.entries.map (fun e => (e.2.importPath, e.1))) with
    | mk st2 r =>
      rw [hg] at h
      cases r with
      | error e =>
        dsimp only at h
        exact absurd (congrArg Prod.snd h) (by simp)
      | ok list =>
        dsimp only at h
        have hm : toMapping list = m := Except.ok.inj (congrArg Prod.snd h)
        have hip : (idx.entries.map (fun e => (e.2.importPath, e.1))).map Prod.fst
            = idx.entries.map (fun e => e.2.importPath) := by
          rw [List.map_map]
          rfl
        have hkeys : list.map Prod.fst = idx.entries.map (fun e => e.2.importPath) := by
          rw [loadInBatchesGo_ok_keys hbs _ _ st st2 list (Nat.le_refl _) hg]
          exact hip
        rw [← hm, toMapping_keys_nodup (by rw [hkeys]; exact hnd)]
        exact hkeys

/-- Witness for C4: five import paths with batch size 2 split into
batches [2, 2, 1], and the returned mapping's keys are in index order. -/
theorem c4_batching_order_wit :
    ((1 : Nat) ≤ 2 ∧ c4st.storyIndex = some c4idx ∧
        (c4idx.entries.map (fun e => e.2.importPath)).Nodup ∧
        loadAllCSFFiles c4st 2 = ((loadAllCSFFiles c4st 2).1, .ok c4m) ∧
        chunks 2 ([1, 2, 3, 4, 5] : List Nat).length [1, 2, 3, 4, 5] = [[1, 2], [3, 4], [5]]) ∧
      c4m.map Prod.fst = c4idx.entries.map (fun e => e.2.importPath) :=
  ⟨⟨by decide, rfl, by decide, rfl, by decide⟩,
    c4_batching_order.2.2.2 2 (by decide) c4st (loadAllCSFFiles c4st 2).1 c4idx c4m
      rfl (by decide) rfl⟩

section FrameLemmas

theorem loadCSF_keeps (s : StoreState) (id : StoryId) :
    (loadCSFFileByStoryId s id).1.ready = s.ready ∧
      (loadCSFFileByStoryId s id).1.storyCache = s.storyCache := by
  unfold loadCSFFileByStoryId
  repeat' split
  all_goals exact ⟨rfl, rfl⟩

theorem runBatch_keeps : ∀ (b : List (String × StoryId)) (s : StoreState),
    (runBatch s b).1.ready = s.ready ∧ (runBatch s b).1.storyCache = s.storyCache
  | [], s => ⟨rfl, rfl⟩
  | x :: l, s => by
    rw [runBatch_cons]
    have h1 := loadCSF_keeps s x.2
    have h2 := runBatch_keeps l (loadCSFFileByStoryId s x.2).1
    exact ⟨h2.1.trans h1.1, h2.2.trans h1.2⟩

theorem loadInBatchesGo_keeps (bs : Nat) :
    ∀ (fuel : Nat) (l : List (String × StoryId)) (s : StoreState),
      (loadInBatchesGo bs fuel s l).1.ready = s.ready ∧
        (loadInBatchesGo bs fuel s l).1.storyCache = s.storyCache
  | fuel, [], s => by cases fuel <;> exact ⟨rfl, rfl⟩
  | 0, x :: xs, s => ⟨rfl, rfl⟩
  | fuel + 1, x :: xs, s => by
    simp only [loadInBatchesGo]
    have hb := runBatch_keeps ((x :: xs).take bs) s
    cases hseq : seqResults (runBatch s ((x :: xs).take bs)).2 with
    | error e => exact hb
    | ok firstResults =>
      have hr := loadInBatchesGo_keeps bs fuel ((x :: xs).drop bs) (runBatch s ((x :: xs).take bs)).1
      cases hrec : loadInBatchesGo bs fuel (runBatch s ((x :: xs).take bs)).1 ((x :: xs).drop bs) with
      | mk st2 r2 =>
        rw [hrec] at hr
        cases r2 with
        | error e => exact ⟨hr.1.trans hb.1, hr.2.trans hb.2⟩
        | ok more => exact ⟨hr.1.trans hb.1, hr.2.trans hb.2⟩

theorem loadAllCSFFiles_keeps (s : StoreState) (bs : Nat) :
    (loadAllCSFFiles s bs).1.ready = s.ready ∧
      (loadAllCSFFiles s bs).1.storyCache = s.storyCache := by
  unfold loadAllCSFFiles
  cases s.storyIndex with
  | none => exact ⟨rfl, rfl⟩
  | some idx =>
    dsimp only
    have hg := loadInBatchesGo_keeps bs (idx.entries.map (fun e => (e.2.importPath, e.1))).length
      (idx.entries.map (fun e => (e.2.importPath, e.1))) s
    cases hrec : loadInBatchesGo bs (idx.entries.map (fun e => (e.2.importPath, e.1))).length s
        (idx.entries.map (fun e => (e.2.importPath, e.1))) with
    | mk st1 r =>
      rw [hrec] at hg
      cases r with
      | error e => exact hg
      | ok list => exact hg

theorem cacheAllBody_keeps (s : StoreState) :
    (cacheAllBody s).1.ready = s.ready ∧ (cacheAllBody s).1.storyCache = s.storyCache := by
  unfold cacheAllBody
  have hg := loadAllCSFFiles_keeps s EXTRACT_BATCH_SIZE
  cases hrec : loadAllCSFFiles s EXTRACT_BATCH_SIZE with
  | mk st1 r =>
    rw [hrec] at hg
    cases r with
    | error e => exact hg
    | ok m => exact hg

theorem storyFromCSFFile_ready (st : StoreState) (sid : StoryId) (csf : CSFFile) :
    (storyFromCSFFile st sid csf).1.ready = st.ready := by
  unfold storyFromCSFFile
  repeat' split
  all_goals rfl

theorem loadStoryBody_ready (st : StoreState) (id : StoryId) :
    (loadStoryBody st id).1.ready = st.ready := by
  unfold loadStoryBody
  have h1 := loadCSF_keeps st id
  cases hrec : loadCSFFileByStoryId st id with
  | mk st1 r =>
    rw [hrec] at h1
    cases r with
    | error e => exact h1.1
    | ok csf => exact (storyFromCSFFile_ready st1 id csf).trans h1.1

theorem cacheBranch_keeps (s : StoreState) :
    ((match s.cachedCSFFiles with
      | some _ => cacheAllBody s
      | none => (s, Except.ok ())) : StoreState × Except Err Unit).1.ready = s.ready ∧
      ((match s.cachedCSFFiles with
        | some _ => cacheAllBody s
        | none => (s, Except.ok ())) : StoreState × Except Err Unit).1.storyCache = s.storyCache := by
  cases hc : s.cachedCSFFiles with
  | none => exact ⟨rfl, rfl⟩
  | some c => exact cacheAllBody_keeps s

theorem onStoriesChangedBody_keeps (st : StoreState) (f : Option ImportFn)
    (idx : Option StoryIndex) :
    (onStoriesChangedBody st f idx).1.ready = st.ready ∧
      (onStoriesChangedBody st f idx).1.storyCache = st.storyCache := by
  unfold onStoriesChangedBody
  cases f with
  | none =>
    cases idx with
    | none => exact cacheBranch_keeps st
    | some i => exact cacheBranch_keeps { st with storyIndex := some i }
  | some f2 =>
    cases idx with
    | none => exact cacheBranch_keeps { st with impFn := some f2 }
    | some i => exact cacheBranch_keeps { st with impFn := some f2, storyIndex := some i }

theorem actBody_ready_true : ∀ (a : Act) (s : StoreState), s.ready = true →
    (actBody s a).1.ready = true
  | .aInit idx f cache, s, _ => by
    simp only [actBody]
    cases cache with
    | false => rfl
    | true =>
      rw [if_pos rfl]
      have hg := cacheAllBody_keeps { s with storyIndex := some idx, impFn := some f, ready := true }
      cases hrec : cacheAllBody { s with storyIndex := some idx, impFn := some f, ready := true } with
      | mk st2 r =>
        rw [hrec] at hg
        cases r with
        | error e => exact hg.1
        | ok u => exact hg.1
  | .aSetProjAnn p, s, h => h
  | .aLoadStory id, s, h => by
    simp only [actBody]
    have h1 := loadStoryBody_ready s id
    cases hrec : loadStoryBody s id with
    | mk st1 r =>
      rw [hrec] at h1
      cases r with
      | error e => exact h1.trans h
      | ok v => exact h1.trans h
  | .aStoryIdToEntry id, s, h => by
    simp only [actBody]
    unfold storyIdToEntryBody
    cases s.storyIndex with
    | none => exact h
    | some idx =>
      dsimp only
      cases storyIdToEntry idx id with
      | error e => exact h
      | ok e => exact h
  | .aOnStoriesChanged f idx, s, h => by
    simp only [actBody]
    have h1 := onStoriesChangedBody_keeps s f idx
    cases hrec : onStoriesChangedBody s f idx with
    | mk st1 r =>
      rw [hrec] at h1
      cases r with
      | error e => exact h1.1.trans h
      | ok u => exact h1.1.trans h
  | .aCacheAll, s, h => by
    simp only [actBody]
    have h1 := cacheAllBody_keeps s
    cases hrec : cacheAllBody s with
    | mk st1 r =>
      rw [hrec] at h1
      cases r with
      | error e => exact h1.1.trans h
      | ok u => exact h1.1.trans h
  | .aLoadCSFDirect id, s, h => by
    simp only [actBody]
    have h1 := loadCSF_keeps s id
    cases hrec : loadCSFFileByStoryId s id with
    | mk st1 r =>
      rw [hrec] at h1
      cases r with
      | error e => exact h1.1.trans h
      | ok c => exact h1.1.trans h
  | .aLoadAll, s, h => by
    simp only [actBody]
    have h1 := loadAllCSFFiles_keeps s EXTRACT_BATCH_SIZE
    cases hrec : loadAllCSFFiles s EXTRACT_BATCH_SIZE with
    | mk st1 r =>
      rw [hrec] at h1
      cases r with
      | error e => exact h1.1.trans h
      | ok m => exact h1.1.trans h

theorem flushGo_ready : ∀ (l : List (Nat × Act)) (p : StoreState × List (Nat × Outcome)),
    p.1.ready = true →
    (l.foldl (fun acc e => ((actBody acc.1 e.2).1, acc.2 ++ [(e.1, (actBody acc.1 e.2).2)])) p).1.ready
      = true
  | [], p, h => h
  | x :: l, p, h => by
    rw [List.foldl_cons]
    exact flushGo_ready l _ (actBody_ready_true x.2 p.1 h)

theorem flush_ready (l : List (Nat × Act)) (s : StoreState) (h : s.ready = true) :
    (flush s l).1.ready = true :=
  flushGo_ready l (s, []) h

end FrameLemmas

/-- C9: `onStoriesChanged` waits for the Ready state (it suspends at the
gate when issued earlier); replacing the loader or the index never
invalidates the story preparation cache; when no full-cache snapshot had
been materialized the operation only swaps the loader/index and touches
nothing else; when a snapshot had been materialized it is unconditionally
recomputed on the updated store. -/
theorem c9_on_stories_changed (st : StoreState) (f : Option ImportFn) (idx : Option StoryIndex) :
    (∀ (sys : Sys) (tag : Nat), sys.st.ready = false →
        (submit sys tag (.aOnStoriesChanged f idx)).st = sys.st ∧
        (submit sys tag (.aOnStoriesChanged f idx)).done = sys.done ∧
        (submit sys tag (.aOnStoriesChanged f idx)).pending
          = sys.pending ++ [(tag, .aOnStoriesChanged f idx)]) ∧
      (onStoriesChangedBody st f idx).1.storyCache = st.storyCache ∧
      (st.cachedCSFFiles = none →
        onStoriesChangedBody st f idx
          = ({ st with
                impFn := match f with | some g => some g | none => st.impFn
                storyIndex := match idx with | some i => some i | none => st.storyIndex },
             .ok ())) ∧
      ∀ c, st.cachedCSFFiles = some c →
        onStoriesChangedBody st f idx
          = cacheAllBody { st with
              impFn := match f with | some g => some g | none => st.impFn
              storyIndex := match idx with | some i => some i | none => st.storyIndex } := by
  refine ⟨?_, (onStoriesChangedBody_keeps st f idx).2, ?_, ?_⟩
  · intro sys tag hready
    refine ⟨?_, ?_, ?_⟩ <;> simp [submit, gatedAct, hready]
  · intro hnone
    unfold onStoriesChangedBody
    cases f with
    | none =>
      cases idx with
      | none =>
        simp [hnone]
        rw [← hnone]
      | some i => simp [hnone]
    | some g =>
      cases idx with
      | none => simp [hnone]
      | some i => simp [hnone]
  · intro c hc
    unfold onStoriesChangedBody
    cases f with
    | none =>
      cases idx with
      | none =>
        simp [hc]
        rw [← hc]
      | some i => simp [hc]
    | some g =>
      cases idx with
      | none => simp [hc]
      | some i => simp [hc]

/-- Witness for C9 at a concrete store with a materialized snapshot. -/
theorem c9_on_stories_changed_wit :
    (c6st.cachedCSFFiles = some [] ∧ Sys.new.st.ready = false) ∧
      (onStoriesChangedBody c6st (some c4f) (some c4idx)).1.storyCache = c6st.storyCache ∧
      onStoriesChangedBody c6st (some c4f) (some c4idx)
        = cacheAllBody { c6st with impFn := some c4f, storyIndex := some c4idx } ∧
      (submit Sys.new 0 (.aOnStoriesChanged (some c4f) (some c4idx))).pending
        = [(0, .aOnStoriesChanged (some c4f) (some c4idx))] :=
  ⟨⟨rfl, rfl⟩,
    (c9_on_stories_changed c6st (some c4f) (some c4idx)).2.1,
    (c9_on_stories_changed c6st (some c4f) (some c4idx)).2.2.2 [] rfl,
    ((c9_on_stories_changed c6st (some c4f) (some c4idx)).1 Sys.new 0 rfl).2.2⟩

/-- C3: operations that require Ready semantics and are issued before
`initialize` suspend without an outcome and resolve, once `initialize`
runs, to the same outcome as if issued after it; `loadCSFFileByStoryId`
and `loadAllCSFFiles` instead fail immediately with the
not-initialized error when invoked strictly before initialization; and
the Uninitialized-to-Ready transition happens exactly once: readiness is
monotone, `initialize` resolves the gate and flushes every waiter, and a
repeated `initialize` finds no waiters to flush. -/
theorem c3_init_gate (sys : Sys) (t1 t2 : Nat) (i : StoryId) (idx : StoryIndex) (f : ImportFn)
    (hready : sys.st.ready = false) (hpend : sys.pending = []) (hdone : sys.done = [])
    (ht : t1 ≠ t2) (hidxN : sys.st.storyIndex = none) :
    (∀ a : Act, gatedAct a = true →
        (submit sys t1 a).done = sys.done ∧ (submit sys t1 a).st = sys.st ∧
          (submit sys t1 a).pending = sys.pending ++ [(t1, a)]) ∧
      (aget (runActs sys [(t1, .aLoadStory i), (t2, .aInit idx f false)]).done t1
          = some (actBody { sys.st with storyIndex := some idx, impFn := some f, ready := true }
              (.aLoadStory i)).2 ∧
        aget (runActs sys [(t2, .aInit idx f false), (t1, .aLoadStory i)]).done t1
          = some (actBody { sys.st with storyIndex := some idx, impFn := some f, ready := true }
              (.aLoadStory i)).2) ∧
      (aget (runActs sys [(t1, .aStoryIdToEntry i), (t2, .aInit idx f false)]).done t1
          = some (actBody { sys.st with storyIndex := some idx, impFn := some f, ready := true }
              (.aStoryIdToEntry i)).2 ∧
        aget (runActs sys [(t2, .aInit idx f false), (t1, .aStoryIdToEntry i)]).done t1
          = some (actBody { sys.st with storyIndex := some idx, impFn := some f, ready := true }
              (.aStoryIdToEntry i)).2) ∧
      (aget (submit sys t1 (.aLoadCSFDirect i)).done t1
          = some (.error (.notInitialized "loadCSFFileByStoryId")) ∧
        aget (submit sys t1 .aLoadAll).done t1
          = some (.error (.notInitialized "loadAllCSFFiles"))) ∧
      (∀ (sys2 : Sys) (tag : Nat) (a : Act), sys2.st.ready = true →
        (submit sys2 tag a).st.ready = true) ∧
      (submit sys t1 (.aInit idx f false)).st.ready = true ∧
      (submit sys t1 (.aInit idx f false)).pending = [] ∧
      ∀ (sys2 : Sys) (tag : Nat), sys2.pending = [] →
        (submit sys2 tag (.aInit idx f false)).done = sys2.done ++ [(tag, .ok .vUnit)] := by
  refine ⟨?_, ⟨?_, ?_⟩, ⟨?_, ?_⟩, ⟨?_, ?_⟩, ?_, ?_, ?_, ?_⟩
  · intro a hg
    cases a with
    | aInit idx2 f2 c2 => simp [gatedAct] at hg
    | aSetProjAnn p => simp [gatedAct] at hg
    | aLoadCSFDirect id2 => simp [gatedAct] at hg
    | aLoadAll => simp [gatedAct] at hg
    | aLoadStory id2 => exact ⟨by simp [submit, gatedAct, hready], by simp [submit, gatedAct, hready],
        by simp [submit, gatedAct, hready]⟩
    | aStoryIdToEntry id2 => exact ⟨by simp [submit, gatedAct, hready], by simp [submit, gatedAct, hready],
        by simp [submit, gatedAct, hready]⟩
    | aOnStoriesChanged f2 idx2 => exact ⟨by simp [submit, gatedAct, hready], by simp [submit, gatedAct, hready],
        by simp [submit, gatedAct, hready]⟩
    | aCacheAll => exact ⟨by simp [submit, gatedAct, hready], by simp [submit, gatedAct, hready],
        by simp [submit, gatedAct, hready]⟩
  · simp [runActs, submit, gatedAct, hready, hpend, hdone, flush, aget]
  · simp [runActs, submit, gatedAct, hready, hpend, hdone, flush, aget, ht]
  · simp [runActs, submit, gatedAct, hready, hpend, hdone, flush, aget]
  · simp [runActs, submit, gatedAct, hready, hpend, hdone, flush, aget, ht]
  · simp [submit, gatedAct, hdone, aget, actBody, loadCSFFileByStoryId, hidxN]
  · simp [submit, gatedAct, hdone, aget, actBody, loadAllCSFFiles, hidxN]
  · intro sys2 tag a h
    cases a with
    | aInit idx2 f2 c2 =>
      simp only [submit]
      cases c2 with
      | false =>
        rw [if_neg (by simp)]
        exact flush_ready sys2.pending _ rfl
      | true =>
        rw [if_pos rfl]
        have hg := cacheAllBody_keeps (flush
          { sys2.st with
              storyIndex := some idx2
              impFn := some f2
              ready := true } sys2.pending).1
        cases hrec : cacheAllBody (flush
            { sys2.st with
                storyIndex := some idx2
                impFn := some f2
                ready := true } sys2.pending).1 with
        | mk st2 r =>
          rw [hrec] at hg
          cases r with
          | error e =>
            dsimp only
            exact hg.1.trans (flush_ready _ _ rfl)
          | ok u =>
            dsimp only
            exact hg.1.trans (flush_ready _ _ rfl)
    | aSetProjAnn p => simp [submit, gatedAct, actBody, setProjAnn, h]
    | aLoadStory id2 =>
      simp only [submit, gatedAct, h]
      exact actBody_ready_true _ _ h
    | aStoryIdToEntry id2 =>
      simp only [submit, gatedAct, h]
      exact actBody_ready_true _ _ h
    | aOnStoriesChanged f2 idx2 =>
      simp only [submit, gatedAct, h]
      exact actBody_ready_true _ _ h
    | aCacheAll =>
      simp only [submit, gatedAct, h]
      exact actBody_ready_true _ _ h
    | aLoadCSFDirect id2 =>
      simp only [submit, gatedAct, h]
      exact actBody_ready_true _ _ h
    | aLoadAll =>
      simp only [submit, gatedAct, h]
      exact actBody_ready_true _ _ h
  · simp only [submit]
    exact flush_ready sys.pending _ rfl
  · simp [submit]
  · intro sys2 tag hp
    simp [submit, hp, flush]

/-- Witness for C3 at a freshly constructed system. -/
theorem c3_init_gate_wit :
    (Sys.new.st.ready = false ∧ Sys.new.pending = [] ∧ Sys.new.done = [] ∧
        (1 : Nat) ≠ 2 ∧ Sys.new.st.storyIndex = none) ∧
      ((∀ a : Act, gatedAct a = true →
          (submit Sys.new 1 a).done = Sys.new.done ∧ (submit Sys.new 1 a).st = Sys.new.st ∧
            (submit Sys.new 1 a).pending = Sys.new.pending ++ [(1, a)]) ∧
        (aget (runActs Sys.new [(1, .aLoadStory "c--s"), (2, .aInit c4idx c4f false)]).done 1
            = some (actBody { Sys.new.st with
                storyIndex := some c4idx
                impFn := some c4f
                ready := true } (.aLoadStory "c--s")).2 ∧
          aget (runActs Sys.new [(2, .aInit c4idx c4f false), (1, .aLoadStory "c--s")]).done 1
            = some (actBody { Sys.new.st with
                storyIndex := some c4idx
                impFn := some c4f
                ready := true } (.aLoadStory "c--s")).2) ∧
        (aget (runActs Sys.new [(1, .aStoryIdToEntry "c--s"), (2, .aInit c4idx c4f false)]).done 1
            = some (actBody { Sys.new.st with
                storyIndex := some c4idx
                impFn := some c4f
                ready := true } (.aStoryIdToEntry "c--s")).2 ∧
          aget (runActs Sys.new [(2, .aInit c4idx c4f false), (1, .aStoryIdToEntry "c--s")]).done 1
            = some (actBody { Sys.new.st with
                storyIndex := some c4idx
                impFn := some c4f
                ready := true } (.aStoryIdToEntry "c--s")).2) ∧
        (aget (submit Sys.new 1 (.aLoadCSFDirect "c--s")).done 1
            = some (.error (.notInitialized "loadCSFFileByStoryId")) ∧
          aget (submit Sys.new 1 .aLoadAll).done 1
            = some (.error (.notInitialized "loadAllCSFFiles"))) ∧
        (∀ (sys2 : Sys) (tag : Nat) (a : Act), sys2.st.ready = true →
          (submit sys2 tag a).st.ready = true) ∧
        (submit Sys.new 1 (.aInit c4idx c4f false)).st.ready = true ∧
        (submit Sys.new 1 (.aInit c4idx c4f false)).pending = [] ∧
        ∀ (sys2 : Sys) (tag : Nat), sys2.pending = [] →
          (submit sys2 tag (.aInit c4idx c4f false)).done = sys2.done ++ [(tag, .ok .vUnit)]) :=
  ⟨⟨rfl, rfl, rfl, by decide, rfl⟩,
    c3_init_gate Sys.new 1 2 "c--s" c4idx c4f rfl rfl rfl (by decide) rfl⟩

end SB
